import Mathlib

/-!
# Inertia: control-surface commands, daemon configuration, test container stopper
# and the GitHub webhook event model

Shallow embedding of

* `cmd/deploy.go` (the `up`, `down`, `status` and `reset` commands),
* `daemon/inertiad/cfg/config.go` (`Config`, `New`),
* `daemon/inertiad/build/builder_test.go` (`killTestContainers`),
* `daemon/inertiad/webhook/github.go` (`parseGithubEvent` and the getters of
  `githubPushEvent`), together with the part of Go's `encoding/json` that
  `parseGithubEvent` runs through `json.Decoder.Decode`.
-/

namespace Inertia

/-! ## `cmd/deploy.go` -/

namespace Cmd

/-- Go `http.StatusOK`. -/
def StatusOK : Int := 200
/-- Go `http.StatusCreated`. -/
def StatusCreated : Int := 201
/-- Go `http.StatusForbidden`. -/
def StatusForbidden : Int := 403
/-- Go `http.StatusNotFound`. -/
def StatusNotFound : Int := 404
/-- Go `http.StatusPreconditionFailed`. -/
def StatusPreconditionFailed : Int := 412

/-- The part of `*http.Response` the commands read: the status code and the
bytes `ioutil.ReadAll(resp.Body)` yields (a read error is only passed to
`log.WithError`, which has no effect, so the bytes read so far are the body). -/
structure Response where
  StatusCode : Int
  Body : String
deriving DecidableEq, Repr

/-- The classes a command sorts a daemon response into, named after the text of
the `switch` arm that prints it; `concurrentDeployment` is the class of the
interface description that no arm of `deploy.go` prints. -/
inductive Class where
  | success
  | badAuth
  | setupProblem
  | noContainersActive
  | deploymentProblem
  | concurrentDeployment
  | unknownResponse
deriving DecidableEq, Repr

/-- The four commands of the control surface. -/
inductive Command where
  | up
  | down
  | status
  | reset
deriving DecidableEq, Repr

/-- How the `Run` function of a command ends. -/
inductive Outcome where
  /-- Ended by `log.Fatal(err)`: the error is logged and the process exits. -/
  | fatal (err : String)
  /-- Returned after the `switch` printed `out` in the arm of class `cls`. -/
  | printed (cls : Class) (out : String)
  /-- Runtime fault: `resp.Body` is evaluated on a nil `*http.Response`. -/
  | nilDereference
deriving DecidableEq, Repr

/-- The `switch resp.StatusCode` of `deployUpCmd` (the default arm prints no newline). -/
def upSwitch (code : Int) (body : String) : Class × String :=
  if code = StatusCreated then
    (.success, "(Status code " ++ toString code ++ ") Project up\n")
  else if code = StatusForbidden then
    (.badAuth, "(Status code " ++ toString code ++ ") Bad auth: " ++ body ++ "\n")
  else if code = StatusPreconditionFailed then
    (.setupProblem,
      "(Status code " ++ toString code ++ ") Problem with deployment setup: " ++ body ++ "\n")
  else
    (.unknownResponse,
      "(Status code " ++ toString code ++ ") Unknown response from daemon: " ++ body)

/-- The `switch resp.StatusCode` of `deployDownCmd`. -/
def downSwitch (code : Int) (body : String) : Class × String :=
  if code = StatusOK then
    (.success, "(Status code " ++ toString code ++ ") Project down\n")
  else if code = StatusPreconditionFailed then
    (.noContainersActive,
      "(Status code " ++ toString code ++ ") No containers are currently active\n")
  else if code = StatusForbidden then
    (.badAuth, "(Status code " ++ toString code ++ ") Bad auth: " ++ body ++ "\n")
  else
    (.unknownResponse,
      "(Status code " ++ toString code ++ ") Unknown response from daemon: " ++ body ++ "\n")

/-- The `switch resp.StatusCode` of `deployStatusCmd`. -/
def statusSwitch (code : Int) (body : String) : Class × String :=
  if code = StatusOK then
    (.success, "(Status code " ++ toString code ++ ") " ++ body ++ "\n")
  else if code = StatusForbidden then
    (.badAuth, "(Status code " ++ toString code ++ ") Bad auth: " ++ body ++ "\n")
  else if code = StatusNotFound then
    (.deploymentProblem,
      "(Status code " ++ toString code ++ ") Problem with deployment: " ++ body ++ "\n")
  else if code = StatusPreconditionFailed then
    (.setupProblem,
      "(Status code " ++ toString code ++ ") Problem with deployment setup: " ++ body ++ "\n")
  else
    (.unknownResponse,
      "(Status code " ++ toString code ++ ") Unknown response from daemon: " ++ body ++ "\n")

/-- The `switch resp.StatusCode` of `deployResetCmd`. -/
def resetSwitch (code : Int) (body : String) : Class × String :=
  if code = StatusOK then
    (.success, "(Status code " ++ toString code ++ ") " ++ body ++ "\n")
  else if code = StatusForbidden then
    (.badAuth, "(Status code " ++ toString code ++ ") Bad auth: " ++ body ++ "\n")
  else
    (.unknownResponse,
      "(Status code " ++ toString code ++ ") Unknown response from daemon: " ++ body ++ "\n")

/-- What follows the request in every command: `defer resp.Body.Close()` evaluates
`resp.Body`, which faults on a nil response; otherwise the body is read and the
`switch` prints. -/
def readAndPrint (sw : Int → String → Class × String) (resp : Option Response) : Outcome :=
  match resp with
  | none => .nilDereference
  | some r => .printed (sw r.StatusCode r.Body).1 (sw r.StatusCode r.Body).2

/-- The `Run` of `deployUpCmd`. `depErr` is the error of `client.GetDeployment()`,
`resp` and `err` are the two results of `deployment.Up()`. Both errors end in
`log.Fatal`. -/
def deployUpCmd.Run (depErr : Option String) (resp : Option Response) (err : Option String) :
    Outcome :=
  match depErr with
  | some e => .fatal e
  | none =>
    match err with
    | some e => .fatal e
    | none => readAndPrint upSwitch resp

/-- The `Run` of `deployDownCmd`. The error of `deployment.Down()` is only handed to
`log.WithError`, which builds a log entry and neither prints nor stops: the
function goes on to `resp.Body` whatever `err` is. -/
def deployDownCmd.Run (depErr : Option String) (resp : Option Response) (_err : Option String) :
    Outcome :=
  match depErr with
  | some e => .fatal e
  | none => readAndPrint downSwitch resp

/-- The `Run` of `deployStatusCmd`; the request error is handled as in `down`. -/
def deployStatusCmd.Run (depErr : Option String) (resp : Option Response) (_err : Option String) :
    Outcome :=
  match depErr with
  | some e => .fatal e
  | none => readAndPrint statusSwitch resp

/-- The `Run` of `deployResetCmd`; the request error is handled as in `down`. -/
def deployResetCmd.Run (depErr : Option String) (resp : Option Response) (_err : Option String) :
    Outcome :=
  match depErr with
  | some e => .fatal e
  | none => readAndPrint resetSwitch resp

/-- The `Run` function of each command. -/
def run : Command → Option String → Option Response → Option String → Outcome
  | .up => deployUpCmd.Run
  | .down => deployDownCmd.Run
  | .status => deployStatusCmd.Run
  | .reset => deployResetCmd.Run

/-- The classification table as the interface description words it: the class of a
response as a function of the command and the status code. -/
def claimedClass : Command → Int → Class
  | .up, code =>
    if code = 201 then .success else if code = 403 then .badAuth
    else if code = 412 then .setupProblem else .unknownResponse
  | .down, code =>
    if code = 200 then .success else if code = 412 then .noContainersActive
    else if code = 403 then .badAuth else .unknownResponse
  | .status, code =>
    if code = 200 then .success else if code = 403 then .badAuth
    else if code = 404 then .deploymentProblem
    else if code = 412 then .setupProblem else .unknownResponse
  | .reset, code =>
    if code = 200 then .success else if code = 403 then .badAuth else .unknownResponse

/-- The class a finished run printed, if it printed at all. -/
def Outcome.classOf : Outcome → Option Class
  | .printed cls _ => some cls
  | _ => none

/-- Whether the run read the response (its body and status code). -/
def Outcome.readResponse : Outcome → Bool
  | .printed _ _ => true
  | _ => false

end Cmd

/-! ## `daemon/inertiad/cfg/config.go` -/

namespace Cfg

/-- The daemon configuration `Config`. -/
structure Config where
  ProjectDirectory : String
  DataDirectory : String
  SecretsDirectory : String
  DockerComposeVersion : String
  WebhookSecret : String
deriving DecidableEq, Repr

/-- A process environment: the value of each variable that is set. -/
abbrev Environ := String → Option String

/-- Go `os.Getenv`: the value of the variable, empty when it is not set. -/
def Getenv (env : Environ) (key : String) : String :=
  (env key).getD ""

/-- The constructor `New`: four fields are read from the environment, `WebhookSecret`
is not named in the composite literal and keeps the zero value of `string`. -/
def New (env : Environ) : Config :=
  { SecretsDirectory := Getenv env "INERTIA_SECRETS_DIR"
    DataDirectory := Getenv env "INERTIA_DATA_DIR"
    DockerComposeVersion := Getenv env "INERTIA_DOCKERCOMPOSE"
    ProjectDirectory := Getenv env "INERTIA_PROJECT_DIR"
    WebhookSecret := "" }

/-- An environment in which every variable is set, each to `secret`. -/
def envAllSet : Environ := fun _ => some "secret"

/-- An environment that sets the four directories and the compose version only. -/
def envSample : Environ := fun k =>
  if k = "INERTIA_PROJECT_DIR" then some "/app/host/inertia/project/"
  else if k = "INERTIA_DATA_DIR" then some "/app/host/inertia/data/"
  else if k = "INERTIA_DOCKERCOMPOSE" then some "docker/compose:1.21.0"
  else none

end Cfg

/-! ## `daemon/inertiad/build/builder_test.go`: `killTestContainers` -/

namespace Build

/-- The fields of Docker's `types.Container` the stopper reads. -/
structure Container where
  ID : String
  Names : List String
deriving DecidableEq, Repr

/-- The two calls the stopper makes on the Docker client, over an engine state `σ`:
`ContainerList` returns a listing and an error, `ContainerKill` takes a container
id and a signal, returns an error and moves the engine to a new state. -/
structure Client (σ : Type) where
  ContainerList : σ → List Container × Option String
  ContainerKill : σ → String → String → Option String × σ

/-- One `ContainerKill` call as it was sent, with the error it came back with. -/
structure KillCall where
  id : String
  signal : String
  err : Option String
deriving DecidableEq, Repr

/-- How the stopper ends: it returns its error value, or it faults on `Names[0]`
of a container without names. -/
inductive Ending where
  | returned (err : Option String)
  | indexOutOfRange
deriving DecidableEq, Repr

/-- A finished run of the stopper: its ending, the kill calls it sent in order,
and the engine state it leaves. -/
structure Run (σ : Type) where
  ending : Ending
  sent : List KillCall
  state : σ

/-- The `for _, container := range containers` loop. `listErr` is the outer `err`
(returned by the final `return err`), `sent` the calls made so far. -/
def killLoop {σ : Type} (cli : Client σ) (listErr : Option String) :
    List Container → σ → List KillCall → Run σ
  | [], s, sent => ⟨.returned listErr, sent, s⟩
  | container :: rest, s, sent =>
    match container.Names with
    | [] => ⟨.indexOutOfRange, sent, s⟩
    | name :: _ =>
      if name ≠ "/testvps" then
        match cli.ContainerKill s container.ID "SIGKILL" with
        | (some e, s') => ⟨.returned (some e), sent ++ [⟨container.ID, "SIGKILL", some e⟩], s'⟩
        | (none, s') => killLoop cli listErr rest s' (sent ++ [⟨container.ID, "SIGKILL", none⟩])
      else
        killLoop cli listErr rest s sent

/-- The test helper `killTestContainers` (the writer argument is not used). -/
def killTestContainers {σ : Type} (cli : Client σ) (s : σ) : Run σ :=
  match cli.ContainerList s with
  | (_, some e) => ⟨.returned (some e), [], s⟩
  | (containers, none) => killLoop cli none containers s []

/-- Whether the loop kills a listed container: its first name is not `/testvps`. -/
def notTestvps (c : Container) : Bool :=
  match c.Names with
  | [] => true
  | name :: _ => name ≠ "/testvps"

/-- The kill call the loop sends for a listed container. -/
def killOf (c : Container) : String × String := (c.ID, "SIGKILL")

/-- The container id and the signal of a kill call. -/
def KillCall.target (k : KillCall) : String × String := (k.id, k.signal)

/-- An engine for examples: the state is the list of ids still running; a kill
fails for an id in `failing` and otherwise removes the id. -/
def sampleClient (listing : List Container) (listErr : Option String)
    (failing : List String) : Client (List String) where
  ContainerList := fun _ => (listing, listErr)
  ContainerKill := fun s id _ =>
    if id ∈ failing then (some ("cannot kill " ++ id), s) else (none, s.filter (· ≠ id))

/-- A listing with the test VPS between two project containers. -/
def sampleListing : List Container :=
  [⟨"c1", ["/web"]⟩, ⟨"vps", ["/testvps"]⟩, ⟨"c2", ["/db", "/web/db"]⟩]

end Build

/-! ## `daemon/inertiad/webhook/github.go` and the decoder of `encoding/json`

`parseGithubEvent` hands the request body to `json.Decoder.Decode`. The decoder is
Go's standard library; what it does with a body is embedded here from its
documented behaviour, in two steps as in the library:

* `scanBody`: the scanner reads the first JSON value of the stream (the grammar of
  RFC 8259) and leaves what follows unread; an empty body, a body that ends inside
  a value, text that is not JSON and arrays and objects nested more than 10000
  deep (`maxNestingDepth`) are errors;
* `unmarshal`: the value is stored in the struct. An object key selects the field
  whose tag it equals, else the first field whose tag it equals with the case of
  letters ignored; fields that are not exported are never selected; a string is
  stored in a `string` field and an object in a struct field, `null` leaves a field
  as it is, and any other value records an `UnmarshalTypeError`, returned when the
  whole value has been read.

The body is taken as text: the decoder reads it as UTF-8, rejects a byte that is
not valid UTF-8 outside a string literal like any other stray character, and
replaces it by U+FFFD inside one. -/

namespace Webhook

/-- A JSON value as `encoding/json` reads it: a number keeps its literal text, a
string is held unquoted, an object keeps its members in order, duplicates included. -/
inductive JSON where
  | null
  | bool (b : Bool)
  | num (lit : String)
  | str (s : String)
  | arr (elems : List JSON)
  | obj (members : List (String × JSON))

/-- The scanner's `isSpace`: space, tab, carriage return, line feed. -/
def isSpace (c : Char) : Bool :=
  c = ' ' || c = '\t' || c = '\r' || c = '\n'

/-- Skip the white space the scanner ignores between tokens. -/
def skipSpace : List Char → List Char
  | [] => []
  | c :: cs => if isSpace c then skipSpace cs else c :: cs

/-- A decimal digit. -/
def isDigit (c : Char) : Bool := '0' ≤ c && c ≤ '9'

/-- A hexadecimal digit of a `\u` escape. -/
def isHex (c : Char) : Bool :=
  ('0' ≤ c && c ≤ '9') || ('a' ≤ c && c ≤ 'f') || ('A' ≤ c && c ≤ 'F')

/-- The value of a hexadecimal digit. -/
def hexDigit (c : Char) : Nat :=
  if '0' ≤ c && c ≤ '9' then c.toNat - 48
  else if 'a' ≤ c && c ≤ 'f' then c.toNat - 87
  else c.toNat - 55

/-- Whether a list starts with four hexadecimal digits. -/
def startsHex4 : List Char → Bool
  | a :: b :: c :: d :: _ => isHex a && isHex b && isHex c && isHex d
  | _ => false

/-- The number four hexadecimal digits stand for. -/
def hex4 (cs : List Char) : Nat :=
  (cs.take 4).foldl (fun n c => 16 * n + hexDigit c) 0

/-- The leading decimal digits of a list and what follows them. -/
def takeDigits : List Char → List Char × List Char
  | [] => ([], [])
  | c :: cs =>
    if isDigit c then ((takeDigits cs).1.cons c, (takeDigits cs).2) else ([], c :: cs)

/-- The scanner's states `state0`, `state1`: the integer part, `0` or a digit from 1
to 9 followed by digits. -/
def scanUnsigned : List Char → Option (List Char × List Char)
  | [] => none
  | d :: rest =>
    if d = '0' then some (['0'], rest)
    else if isDigit d then some (d :: (takeDigits rest).1, (takeDigits rest).2)
    else none

/-- The scanner's state `stateNeg` before the integer part: an optional minus sign. -/
def scanInt : List Char → Option (List Char × List Char)
  | [] => none
  | c :: rest =>
    if c = '-' then (scanUnsigned rest).map (fun r => ('-' :: r.1, r.2))
    else scanUnsigned (c :: rest)

/-- The scanner's states `stateDot`, `stateDot0`: an optional fraction, a dot
followed by at least one digit. -/
def scanFrac : List Char → Option (List Char × List Char)
  | [] => some ([], [])
  | c :: rest =>
    if c = '.' then
      match takeDigits rest with
      | ([], _) => none
      | (d :: ds, rest') => some ('.' :: d :: ds, rest')
    else some ([], c :: rest)

/-- The scanner's state `stateESign`: the optional sign of an exponent. -/
def scanSign : List Char → List Char × List Char
  | [] => ([], [])
  | s :: rest => if s = '+' || s = '-' then ([s], rest) else ([], s :: rest)

/-- The scanner's states `stateE`, `stateESign`, `stateE0`: an optional exponent,
`e` or `E`, an optional sign and at least one digit. -/
def scanExp : List Char → Option (List Char × List Char)
  | [] => some ([], [])
  | c :: rest =>
    if c = 'e' || c = 'E' then
      match takeDigits (scanSign rest).2 with
      | ([], _) => none
      | (d :: ds, rest') => some (c :: (scanSign rest).1 ++ d :: ds, rest')
    else some ([], c :: rest)

/-- A number literal at the head of the input and what follows it. -/
def scanNumber (cs : List Char) : Option (String × List Char) :=
  match scanInt cs with
  | none => none
  | some (i, r1) =>
    match scanFrac r1 with
    | none => none
    | some (f, r2) =>
      match scanExp r2 with
      | none => none
      | some (e, r3) => some (String.mk (i ++ f ++ e), r3)

/-- The scanner's states `stateInString`, `stateInStringEsc` and the `\u` states, from
the character after the opening quote: the raw text up to the closing quote and
what follows it. A control character, an unknown escape, a `\u` without four
hexadecimal digits or the end of input inside the literal is an error. -/
def scanStringLit : List Char → List Char → Option (List Char × List Char)
  | [], _ => none
  | c :: cs, acc =>
    if c = '"' then some (acc.reverse, cs)
    else if c = '\\' then
      match cs with
      | [] => none
      | e :: cs' =>
        if e = 'b' || e = 'f' || e = 'n' || e = 'r' || e = 't' || e = '\\' || e = '/' || e = '"'
        then scanStringLit cs' (e :: c :: acc)
        else if e = 'u' && startsHex4 cs' then scanStringLit cs' (e :: c :: acc)
        else none
    else if c.toNat < 32 then none
    else scanStringLit cs (c :: acc)

/-- The function `getu4`: the number of a `\uXXXX` escape at the head of the text. -/
def getu4 : List Char → Option Nat
  | b :: u :: hs => if b = '\\' && u = 'u' && startsHex4 hs then some (hex4 hs) else none
  | _ => none

/-- The character a one-letter escape stands for. -/
def unescape (e : Char) : Char :=
  if e = 'b' then Char.ofNat 8
  else if e = 'f' then Char.ofNat 12
  else if e = 'n' then '\n'
  else if e = 'r' then '\r'
  else if e = 't' then '\t'
  else e

/-- The function `unquote` on the raw text of a scanned literal: escapes are
replaced by what they stand for; a `\u` escape of a surrogate is joined with a
following low surrogate escape into one character and is U+FFFD otherwise.
`skip` counts the characters of an escape already accounted for. -/
def unquote : Nat → List Char → List Char
  | _, [] => []
  | skip + 1, _ :: cs => unquote skip cs
  | 0, c :: cs =>
    if c = '\\' then
      match cs with
      | [] => []
      | e :: hs =>
        if e = 'u' then
          let rr := hex4 hs
          if 0xD800 ≤ rr && rr < 0xE000 then
            match getu4 (hs.drop 4) with
            | some rr1 =>
              if rr < 0xDC00 && 0xDC00 ≤ rr1 && rr1 < 0xE000 then
                Char.ofNat ((rr - 0xD800) * 1024 + (rr1 - 0xDC00) + 0x10000) :: unquote 11 cs
              else Char.ofNat 0xFFFD :: unquote 5 cs
            | none => Char.ofNat 0xFFFD :: unquote 5 cs
          else Char.ofNat rr :: unquote 5 cs
        else unescape e :: unquote 1 cs
    else c :: unquote 0 cs

/-- The scanner's constant `maxNestingDepth`: the number of arrays and objects that
may be open at once. -/
def maxNestingDepth : Nat := 10000

/-- What the recursive scan is in the middle of: a value, the elements of an array
after `[` or a comma, the members of an object after the opening brace or a comma.
`depth` is the number of arrays and objects open at that point (the length of the
scanner's `parseState`). -/
inductive Mode where
  | value (depth : Nat)
  | elems (depth : Nat) (acc : List JSON)
  | members (depth : Nat) (acc : List (String × JSON))

/-- One level of the scanner and value reader: the first JSON value of the input (in
mode `value`) and the input that follows it, with `next` called for the values,
elements and members nested in it. Opening an array or an object when
`maxNestingDepth` of them are open is the scanner's error `exceeded max depth`
(`pushParseState`). -/
def scanStep (next : Mode → List Char → Option (JSON × List Char)) :
    Mode → List Char → Option (JSON × List Char)
  | .value depth, cs =>
    match skipSpace cs with
    | [] => none
    | c :: rest =>
      if c = '\x7b' then
        if maxNestingDepth < depth + 1 then none
        else
          match skipSpace rest with
          | [] => none
          | c' :: rest' =>
            if c' = '\x7d' then some (.obj [], rest')
            else next (.members (depth + 1) []) (c' :: rest')
      else if c = '[' then
        if maxNestingDepth < depth + 1 then none
        else
          match skipSpace rest with
          | [] => none
          | c' :: rest' =>
            if c' = ']' then some (.arr [], rest')
            else next (.elems (depth + 1) []) (c' :: rest')
      else if c = '"' then
        (scanStringLit rest []).map (fun r => (.str (String.mk (unquote 0 r.1)), r.2))
      else if c = 't' then
        match rest with
        | 'r' :: 'u' :: 'e' :: rest' => some (.bool true, rest')
        | _ => none
      else if c = 'f' then
        match rest with
        | 'a' :: 'l' :: 's' :: 'e' :: rest' => some (.bool false, rest')
        | _ => none
      else if c = 'n' then
        match rest with
        | 'u' :: 'l' :: 'l' :: rest' => some (.null, rest')
        | _ => none
      else (scanNumber (c :: rest)).map (fun r => (.num r.1, r.2))
  | .elems depth acc, cs =>
    match next (.value depth) cs with
    | none => none
    | some (v, rest) =>
      match skipSpace rest with
      | [] => none
      | c :: rest' =>
        if c = ',' then next (.elems depth (acc ++ [v])) rest'
        else if c = ']' then some (.arr (acc ++ [v]), rest')
        else none
  | .members depth acc, cs =>
    match skipSpace cs with
    | [] => none
    | q :: afterQuote =>
      if q = '"' then
        match scanStringLit afterQuote [] with
        | none => none
        | some (rawKey, afterKey) =>
          match skipSpace afterKey with
          | [] => none
          | colon :: afterColon =>
            if colon = ':' then
              match next (.value depth) afterColon with
              | none => none
              | some (v, rest) =>
                match skipSpace rest with
                | [] => none
                | c :: rest' =>
                  if c = ',' then
                    next (.members depth (acc ++ [(String.mk (unquote 0 rawKey), v)])) rest'
                  else if c = '\x7d' then
                    some (.obj (acc ++ [(String.mk (unquote 0 rawKey), v)]), rest')
                  else none
            else none
      else none

/-- The scanner and value reader with calls nested at most `fuel` deep. -/
def scan : Nat → Mode → List Char → Option (JSON × List Char)
  | 0 => fun _ _ => none
  | fuel + 1 => scanStep (scan fuel)

/-- The depth of calls that reading in a given mode from a given input can reach: two
for every character, since an element is read at the place its array left off. -/
def need : Mode → List Char → Nat
  | .value _, cs => 2 * cs.length + 1
  | .elems _ _, cs => 2 * cs.length + 2
  | .members _ _, cs => 2 * cs.length + 2

/-- What `Decoder.readValue` and the value reader make of a request body: the first
JSON value in it, or nothing when the scanner reports an error: the body is
empty, ends inside a value, is not JSON, or nests arrays and objects more than
`maxNestingDepth` deep. What follows the first value is left unread. The depth
of calls given to `scan` is enough for every body (`scanBody_complete`). -/
def scanBody (body : String) : Option JSON :=
  (scan (2 * body.length + 2) (.value 0) body.data).map (·.1)

/-- The header value `GithubPushHeader` of the `x-github-event` header. -/
def GithubPushHeader : String := "push"

/-- Modelled from the spec: the constant `PushEvent` of package `webhook`, which
`github.go` uses and another file of the package declares; the spec gives the
event kind as "push". -/
def PushEvent : String := "push"

/-- The struct `githubPushEventRepository`, tagged `name`, `clone_url`, `ssh_url`. -/
structure githubPushEventRepository where
  Name : String
  GitURL : String
  SSHURL : String
deriving DecidableEq, Repr

/-- The struct `githubPushEvent`: `eventType` is not exported, `Ref` is tagged `ref`
and `Repo` is tagged `repository`. -/
structure githubPushEvent where
  eventType : String
  Ref : String
  Repo : githubPushEventRepository
deriving DecidableEq, Repr

/-- The method `GetEventType`. -/
def githubPushEvent.GetEventType (g : githubPushEvent) : String := g.eventType
/-- The method `GetRepoName`. -/
def githubPushEvent.GetRepoName (g : githubPushEvent) : String := g.Repo.Name
/-- The method `GetRef`. -/
def githubPushEvent.GetRef (g : githubPushEvent) : String := g.Ref
/-- The method `GetGitURL`. -/
def githubPushEvent.GetGitURL (g : githubPushEvent) : String := g.Repo.GitURL
/-- The method `GetSSHURL`. -/
def githubPushEvent.GetSSHURL (g : githubPushEvent) : String := g.Repo.SSHURL

/-- An ASCII letter. -/
def isLetter (c : Char) : Bool := ('a' ≤ c && c ≤ 'z') || ('A' ≤ c && c ≤ 'Z')

/-- The upper-case form of an ASCII letter (the decoder's `b & caseMask`). -/
def upper (c : Char) : Char := if 'a' ≤ c && c ≤ 'z' then Char.ofNat (c.toNat - 32) else c

/-- One step of the decoder's `equalFold` for a field name of ASCII characters: the
name's character `sb` against the key's character `tb`. ASCII letters match
whatever their case, other ASCII characters match themselves, and outside ASCII
only U+017F matches `s` and U+212A matches `k`. -/
def foldEqChar (sb tb : Char) : Bool :=
  if tb.toNat < 128 then sb = tb || (isLetter sb && upper sb = upper tb)
  else ((sb = 's' || sb = 'S') && tb = Char.ofNat 0x17F)
    || ((sb = 'k' || sb = 'K') && tb = Char.ofNat 0x212A)

/-- The decoder's `equalFold` of a field name and an object key. -/
def equalFold : List Char → List Char → Bool
  | [], [] => true
  | sb :: s, tb :: t => foldEqChar sb tb && equalFold s t
  | _, _ => false

/-- The loop of `decodeState.object` that picks the field a key is stored in: a field
whose name is the key, else the first field whose name folds to the key. -/
def findFieldLoop (key : String) : List String → Option String → Option String
  | [], f => f
  | ff :: rest, f =>
    if ff = key then some ff
    else findFieldLoop key rest (if f.isNone && equalFold ff.data key.data then some ff else f)

/-- The field of a struct, given by the names in its tags, that a key selects. -/
def findField (fields : List String) (key : String) : Option String :=
  findFieldLoop key fields none

/-- The names `encoding/json` gives the exported fields of `githubPushEvent`. -/
def pushFields : List String := ["ref", "repository"]

/-- The names `encoding/json` gives the fields of `githubPushEventRepository`. -/
def repositoryFields : List String := ["name", "clone_url", "ssh_url"]

/-- Store a JSON value in a field of type `string`: a string is stored, `null` leaves
the field as it is, any other value leaves it and records an `UnmarshalTypeError`.
The result is the field and whether an error was recorded. -/
def storeString (v : JSON) (cur : String) : String × Bool :=
  match v with
  | .str s => (s, false)
  | .null => (cur, false)
  | _ => (cur, true)

/-- Store one member of the `repository` object. -/
def setRepositoryField (st : githubPushEventRepository × Bool) (m : String × JSON) :
    githubPushEventRepository × Bool :=
  match findField repositoryFields m.1 with
  | none => st
  | some f =>
    if f = "name" then
      ({ st.1 with Name := (storeString m.2 st.1.Name).1 }, st.2 || (storeString m.2 st.1.Name).2)
    else if f = "clone_url" then
      ({ st.1 with GitURL := (storeString m.2 st.1.GitURL).1 },
        st.2 || (storeString m.2 st.1.GitURL).2)
    else
      ({ st.1 with SSHURL := (storeString m.2 st.1.SSHURL).1 },
        st.2 || (storeString m.2 st.1.SSHURL).2)

/-- Store a JSON value in a field of type `githubPushEventRepository`: the members of
an object are stored one after the other, `null` has no effect, any other value
records an `UnmarshalTypeError`. -/
def storeRepository (v : JSON) (cur : githubPushEventRepository) :
    githubPushEventRepository × Bool :=
  match v with
  | .obj ms => ms.foldl setRepositoryField (cur, false)
  | .null => (cur, false)
  | _ => (cur, true)

/-- Store one member of the top-level object. The field `eventType` is not exported:
no key selects it. -/
def setPushField (st : githubPushEvent × Bool) (m : String × JSON) : githubPushEvent × Bool :=
  match findField pushFields m.1 with
  | none => st
  | some f =>
    if f = "ref" then
      ({ st.1 with Ref := (storeString m.2 st.1.Ref).1 }, st.2 || (storeString m.2 st.1.Ref).2)
    else
      ({ st.1 with Repo := (storeRepository m.2 st.1.Repo).1 },
        st.2 || (storeRepository m.2 st.1.Repo).2)

/-- The function `unmarshal` into a `githubPushEvent`: the value stored in the struct
and whether an `UnmarshalTypeError` was recorded on the way (decoding goes on
after one, and the first is returned at the end). -/
def unmarshal (v : JSON) (payload : githubPushEvent) : githubPushEvent × Bool :=
  match v with
  | .obj ms => ms.foldl setPushField (payload, false)
  | .null => (payload, false)
  | _ => (payload, true)

/-- The call `dec.Decode(&payload)` on a decoder over the request body: the payload as
the call leaves it, and whether it returned an error. -/
def Decode (body : String) (payload : githubPushEvent) : githubPushEvent × Bool :=
  match scanBody body with
  | none => (payload, true)
  | some v => unmarshal v payload

/-- The results of `parseGithubEvent`: the payload, the error, and whether `Decode`
was called on the decoder over the request body. -/
structure Parsed where
  payload : Option githubPushEvent
  err : Option String
  decoded : Bool
deriving DecidableEq, Repr

/-- The function `parseGithubEvent` on the body of the request and the event header. -/
def parseGithubEvent (body : String) (event : String) : Parsed :=
  if event = GithubPushHeader then
    let payload : githubPushEvent := ⟨PushEvent, "", ⟨"", "", ""⟩⟩
    if (Decode body payload).2 then
      ⟨none, some "Error parsing PushEvent", true⟩
    else
      ⟨some (Decode body payload).1, none, true⟩
  else
    ⟨none, some "Unsupported Github event", false⟩

/-! ### Reading the wire format declaratively -/

/-- Whether a JSON value is an object. -/
def JSON.isObject : JSON → Bool
  | .obj _ => true
  | _ => false

/-- The members of a JSON object; a value that is not an object has none. -/
def JSON.members : JSON → List (String × JSON)
  | .obj ms => ms
  | _ => []

/-- A value a field of type `string` takes without error: a string or `null`. -/
def stringOrNull : JSON → Bool
  | .str _ => true
  | .null => true
  | _ => false

/-- A value the field `Repo` takes without error: `null`, or an object in which
every member that selects a field of the repository is a string or `null`. -/
def repositoryTyped : JSON → Bool
  | .null => true
  | .obj rs => rs.all fun m => (findField repositoryFields m.1).isNone || stringOrNull m.2
  | _ => false

/-- The check on one member of the top-level object: a member that selects `Ref` is a
string or `null`, a member that selects `Repo` is typed as a repository, any other
member passes. -/
def memberTyped (m : String × JSON) : Bool :=
  match findField pushFields m.1 with
  | none => true
  | some f => if f = "ref" then stringOrNull m.2 else repositoryTyped m.2

/-- A value that decodes as a push event: `null`, or an object all of whose members
pass `memberTyped`. -/
def pushTyped : JSON → Bool
  | .null => true
  | .obj ms => ms.all memberTyped
  | _ => false

/-- The members of all the objects stored in `Repo`, in the order of the payload. -/
def repositoryMembers (v : JSON) : List (String × JSON) :=
  v.members.flatMap fun m =>
    if findField pushFields m.1 = some "repository" then m.2.members else []

/-- The string a member stores in the field `name` of a struct with the given field
names: its value when its key selects the field and it holds a string. -/
def pick (fields : List String) (name : String) (m : String × JSON) : Option String :=
  if findField fields m.1 = some name then
    match m.2 with
    | .str s => some s
    | _ => none
  else none

/-- The string a list of members leaves in the field `name`: what the last member
that stores one stores, empty when there is none. -/
def lastString (fields : List String) (name : String) (ms : List (String × JSON)) : String :=
  (ms.reverse.findSome? (pick fields name)).getD ""

/-- The string value of the member of an object whose key is exactly `name` (the
first, should there be several). -/
def memberString (name : String) (v : JSON) : Option String :=
  match v.members.lookup name with
  | some (.str s) => some s
  | _ => none

/-- Whether some member of a list selects the field `name`. -/
def selects (fields : List String) (name : String) (ms : List (String × JSON)) : Bool :=
  ms.any fun m => findField fields m.1 = some name

/-- The payload `parseGithubEvent` hands to `Decode`: the composite literal
`githubPushEvent\x7beventType: PushEvent\x7d`. -/
def newPayload : githubPushEvent := ⟨PushEvent, "", ⟨"", "", ""⟩⟩

/-- A push payload as GitHub sends it, cut down to the members that matter here. -/
def samplePush : String :=
  "\x7b\"ref\":\"refs/heads/master\",\"repository\":\x7b\"id\":1,\"name\":\"inertia\"," ++
  "\"clone_url\":\"https://github.com/ubclaunchpad/inertia.git\"," ++
  "\"ssh_url\":\"git@github.com:ubclaunchpad/inertia.git\"\x7d,\"eventType\":\"pull\"\x7d"

/-- A payload with one member named `ref` and one named `REF`. -/
def refTwice : String := "\x7b\"ref\":\"a\",\"REF\":\"b\"\x7d"

/-- A well-formed JSON object whose `ref` is a number. -/
def refNumber : String := "\x7b\"ref\":1\x7d"

/-- The event `parseGithubEvent` returns for `samplePush`. -/
def sampleEvent : githubPushEvent :=
  ⟨"push", "refs/heads/master",
    ⟨"inertia", "https://github.com/ubclaunchpad/inertia.git",
      "git@github.com:ubclaunchpad/inertia.git"⟩⟩

/-- The event with the kind `push` and every other capability empty. -/
def emptyEvent : githubPushEvent := ⟨"push", "", ⟨"", "", ""⟩⟩

/-- A body in the shape of GitHub's `ping` payload: no `ref`, a `repository` with a
`name` only, and keys with a string, a number, a boolean, an object and an array
that no field is tagged with. -/
def pingBody : String :=
  "\x7b\"zen\":\"Keep it simple\",\"hook_id\":7," ++
  "\"repository\":\x7b\"name\":\"inertia\",\"private\":false," ++
  "\"owner\":\x7b\"login\":\"ubclaunchpad\"\x7d\x7d,\"sender\":[1,\x7b\"a\":null\x7d]\x7d"

/-- The members of the object in `pingBody`. -/
def pingMembers : List (String × JSON) :=
  [("zen", .str "Keep it simple"), ("hook_id", .num "7"),
    ("repository", .obj [("name", .str "inertia"), ("private", .bool false),
      ("owner", .obj [("login", .str "ubclaunchpad")])]),
    ("sender", .arr [.num "1", .obj [("a", .null)]])]

/-- A body that opens an object with the key `x` and, under it, `maxNestingDepth`
arrays one inside the other, followed by `rest`: one container more than the
scanner allows. -/
def deepBody (rest : List Char) : String :=
  String.mk ('\x7b' :: '"' :: 'x' :: '"' :: ':' :: (List.replicate maxNestingDepth '[' ++ rest))

/-- The text that closes every array and the object of `deepBody`. -/
def deepClose : List Char := List.replicate maxNestingDepth ']' ++ ['\x7d']

/-- The value of `n + 1` arrays one inside the other, the innermost empty. -/
def nest : Nat → JSON
  | 0 => .arr []
  | n + 1 => .arr [nest n]

/-- A body with an object and, under its key `x`, one array less than `deepBody`
nests, all closed: as many containers as the scanner allows. -/
def limitBody : String :=
  String.mk ('\x7b' :: '"' :: 'x' :: '"' :: ':' ::
    ('[' :: (List.replicate 9998 '[' ++ ']' :: (List.replicate 9998 ']' ++ ['\x7d']))))

end Webhook

/-! ## Theorems on `cmd/deploy.go` -/

namespace Cmd

/-- C4: with a response at hand each of `up`, `down`, `status` and `reset` prints in
exactly one class, and that class is the class the table gives for the command
and the status code, whatever the body; 403 is bad auth in all four commands,
success is 201 for `up` and 200 for the other three. -/
theorem class_by_status_code (cmd : Command) (code : Int) (body : String) :
    (run cmd none (some ⟨code, body⟩) none).classOf = some (claimedClass cmd code)
    ∧ claimedClass cmd 403 = .badAuth
    ∧ claimedClass .up 201 = .success ∧ claimedClass .up 200 = .unknownResponse
    ∧ claimedClass .down 200 = .success ∧ claimedClass .status 200 = .success
    ∧ claimedClass .reset 200 = .success := by
  refine ⟨?_, ?_, by decide, by decide, by decide, by decide, by decide⟩
  · cases cmd
    · simp only [run, deployUpCmd.Run, readAndPrint, upSwitch, claimedClass, Outcome.classOf,
        StatusCreated, StatusForbidden, StatusPreconditionFailed]
      split_ifs <;> rfl
    · simp only [run, deployDownCmd.Run, readAndPrint, downSwitch, claimedClass, Outcome.classOf,
        StatusOK, StatusForbidden, StatusPreconditionFailed]
      split_ifs <;> rfl
    · simp only [run, deployStatusCmd.Run, readAndPrint, statusSwitch, claimedClass,
        Outcome.classOf, StatusOK, StatusForbidden, StatusNotFound, StatusPreconditionFailed]
      split_ifs <;> rfl
    · simp only [run, deployResetCmd.Run, readAndPrint, resetSwitch, claimedClass, Outcome.classOf,
        StatusOK, StatusForbidden]
      split_ifs <;> rfl
  · cases cmd <;> decide

/-- C5 (counterexample): no response of the daemon to `up` is classified as a
concurrent-deployment rejection. -/
theorem up_never_concurrent :
    ¬ ∃ (code : Int) (body : String),
      (deployUpCmd.Run none (some ⟨code, body⟩) none).classOf = some Class.concurrentDeployment := by
  rintro ⟨code, body, h⟩
  simp only [deployUpCmd.Run, readAndPrint, upSwitch, Outcome.classOf] at h
  split_ifs at h <;> simp at h

/-- C5 (amended): the commands have no class for a concurrency rejection: no run of
`up`, `down`, `status` or `reset` prints in that class, and every response to `up`
is classified as success (201), bad auth (403), setup problem (412) or unknown
response (any other status code), a rejection for concurrency included. -/
theorem up_classes_without_concurrent (cmd : Command) (depErr : Option String)
    (resp : Option Response) (err : Option String) (code : Int) (body : String) :
    (run cmd depErr resp err).classOf ≠ some Class.concurrentDeployment
    ∧ ((code = 201 ∧ (deployUpCmd.Run none (some ⟨code, body⟩) none).classOf = some .success)
      ∨ (code = 403 ∧ (deployUpCmd.Run none (some ⟨code, body⟩) none).classOf = some .badAuth)
      ∨ (code = 412 ∧ (deployUpCmd.Run none (some ⟨code, body⟩) none).classOf = some .setupProblem)
      ∨ (code ≠ 201 ∧ code ≠ 403 ∧ code ≠ 412
        ∧ (deployUpCmd.Run none (some ⟨code, body⟩) none).classOf = some .unknownResponse)) := by
  constructor
  · cases cmd <;> cases depErr <;> cases resp <;> cases err <;>
      simp only [run, deployUpCmd.Run, deployDownCmd.Run, deployStatusCmd.Run, deployResetCmd.Run, readAndPrint,
        upSwitch, downSwitch, statusSwitch, resetSwitch, Outcome.classOf] <;>
      (try split_ifs) <;> simp
  · simp only [deployUpCmd.Run, readAndPrint, upSwitch, Outcome.classOf, StatusCreated,
      StatusForbidden, StatusPreconditionFailed]
    by_cases h1 : code = 201
    · left; simp [h1]
    · by_cases h2 : code = 403
      · right; left; simp [h2]
      · by_cases h3 : code = 412
        · right; right; left; simp [h3]
        · right; right; right; simp [h1, h2, h3]

/-- C9 (the code at the failing input): when the request returns an error and no
response, `up` stops in `log.Fatal` and does not read the response, whereas
`down`, `status` and `reset` go on to `resp.Body` and fault on the nil response;
and when an error comes with a response they read that response all the same. -/
theorem request_error_without_response (e : String) (resp : Option Response) (r : Response) :
    deployUpCmd.Run none none (some e) = .fatal e
    ∧ (deployUpCmd.Run none resp (some e)).readResponse = false
    ∧ deployDownCmd.Run none none (some e) = .nilDereference
    ∧ deployStatusCmd.Run none none (some e) = .nilDereference
    ∧ deployResetCmd.Run none none (some e) = .nilDereference
    ∧ (deployDownCmd.Run none (some r) (some e)).readResponse = true
    ∧ (deployStatusCmd.Run none (some r) (some e)).readResponse = true
    ∧ (deployResetCmd.Run none (some r) (some e)).readResponse = true :=
  ⟨rfl, rfl, rfl, rfl, rfl, rfl, rfl, rfl⟩

end Cmd

/-! ## Theorems on `cfg.New` -/

namespace Cfg

/-- C6 (counterexample): in an environment that sets every variable, `New` returns a
configuration whose webhook secret is empty. -/
theorem New_leaves_WebhookSecret_empty :
    (∀ k, envAllSet k = some "secret") ∧ (New envAllSet).WebhookSecret = "" :=
  ⟨fun _ => rfl, rfl⟩

/-- C6 (amended): for every environment `New` returns a configuration (it has no
error result) whose `ProjectDirectory`, `DataDirectory`, `SecretsDirectory` and
`DockerComposeVersion` are the values of `INERTIA_PROJECT_DIR`, `INERTIA_DATA_DIR`,
`INERTIA_SECRETS_DIR` and `INERTIA_DOCKERCOMPOSE`, each empty when the variable
is not set, and whose `WebhookSecret` is empty whatever the environment. -/
theorem New_from_environment (env : Environ) :
    (New env).ProjectDirectory = (env "INERTIA_PROJECT_DIR").getD ""
    ∧ (New env).DataDirectory = (env "INERTIA_DATA_DIR").getD ""
    ∧ (New env).SecretsDirectory = (env "INERTIA_SECRETS_DIR").getD ""
    ∧ (New env).DockerComposeVersion = (env "INERTIA_DOCKERCOMPOSE").getD ""
    ∧ (New env).WebhookSecret = ""
    ∧ (env "INERTIA_PROJECT_DIR" = none → (New env).ProjectDirectory = "")
    ∧ (env "INERTIA_DATA_DIR" = none → (New env).DataDirectory = "")
    ∧ (env "INERTIA_SECRETS_DIR" = none → (New env).SecretsDirectory = "")
    ∧ (env "INERTIA_DOCKERCOMPOSE" = none → (New env).DockerComposeVersion = "") := by
  refine ⟨rfl, rfl, rfl, rfl, rfl, ?_, ?_, ?_, ?_⟩ <;>
    · intro h; simp [New, Getenv, h]

/-- Witness of C6 (amended): an environment that leaves `INERTIA_SECRETS_DIR` unset. -/
theorem New_from_environment_witness :
    New envSample
      = ⟨"/app/host/inertia/project/", "/app/host/inertia/data/", "", "docker/compose:1.21.0", ""⟩
    ∧ (New envSample).SecretsDirectory = "" :=
  ⟨by decide, (New_from_environment envSample).2.2.2.2.2.2.2.1 (by decide)⟩

end Cfg

/-! ## Theorems on `killTestContainers` -/

namespace Build

theorem failing_is_last {α : Type} (P : α → Prop) (pre0 pre post : List α) (k0 k : α)
    (hpre : ∀ x ∈ pre0, P x) (heq : pre0 ++ [k0] = pre ++ k :: post) (hk : ¬ P k) :
    post = [] ∧ k = k0 := by
  rcases List.append_eq_append_iff.mp heq with ⟨a, h1, h2⟩ | ⟨c, h1, h2⟩
  · cases a with
    | nil =>
      simp only [List.nil_append, List.cons.injEq] at h2
      exact ⟨h2.2.symm, h2.1.symm⟩
    | cons x a =>
      simp only [List.cons_append, List.cons.injEq] at h2
      simp at h2
  · cases c with
    | nil =>
      simp only [List.nil_append, List.cons.injEq] at h2
      exact ⟨h2.2, h2.1⟩
    | cons x c =>
      exfalso
      simp only [List.cons_append, List.cons.injEq] at h2
      have : k ∈ pre0 := by rw [h1]; simp [h2.1]
      exact hk (hpre k this)

/-- What the loop of the stopper does from any point on: `sent` holds the calls made
so far, none of which failed. -/
theorem killLoop_spec {σ : Type} (cli : Client σ) :
    ∀ (cs : List Container) (s : σ) (sent : List KillCall), (∀ k ∈ sent, k.err = none) →
      (∃ n, (killLoop cli none cs s sent).sent.map KillCall.target
          = sent.map KillCall.target ++ ((cs.filter notTestvps).take n).map killOf)
      ∧ ((killLoop cli none cs s sent).ending = .returned none →
          (killLoop cli none cs s sent).sent.map KillCall.target
            = sent.map KillCall.target ++ (cs.filter notTestvps).map killOf
          ∧ ∀ k ∈ (killLoop cli none cs s sent).sent, k.err = none)
      ∧ (∀ e, (killLoop cli none cs s sent).ending = .returned (some e) →
          ∃ pre k, (killLoop cli none cs s sent).sent = pre ++ [k] ∧ k.err = some e
            ∧ ∀ k' ∈ pre, k'.err = none)
      ∧ ((killLoop cli none cs s sent).ending = .indexOutOfRange →
          ∀ k ∈ (killLoop cli none cs s sent).sent, k.err = none) := by
  intro cs
  induction cs with
  | nil =>
    intro s sent hsent
    simp only [killLoop]
    exact ⟨⟨0, by simp⟩, fun _ => ⟨by simp, hsent⟩, fun e h => by simp at h, fun h => by simp at h⟩
  | cons c cs ih =>
    intro s sent hsent
    cases hn : c.Names with
    | nil =>
      have hk : killLoop cli none (c :: cs) s sent = ⟨.indexOutOfRange, sent, s⟩ := by
        simp only [killLoop, hn]
      rw [hk]
      exact ⟨⟨0, by simp⟩, fun h => by simp at h, fun e h => by simp at h, fun _ => hsent⟩
    | cons name names =>
      by_cases ht : name = "/testvps"
      · have hk : killLoop cli none (c :: cs) s sent = killLoop cli none cs s sent := by
          simp only [killLoop, hn, ht, ne_eq, not_true_eq_false, if_false]
        have hf : (c :: cs).filter notTestvps = cs.filter notTestvps := by
          simp [List.filter_cons, notTestvps, hn, ht]
        rw [hk, hf]
        exact ih s sent hsent
      · have hf : (c :: cs).filter notTestvps = c :: cs.filter notTestvps := by
          simp [List.filter_cons, notTestvps, hn, ht]
        cases hkill : cli.ContainerKill s c.ID "SIGKILL" with
        | mk e s' =>
          cases e with
          | some e =>
            have hk : killLoop cli none (c :: cs) s sent
                = ⟨.returned (some e), sent ++ [⟨c.ID, "SIGKILL", some e⟩], s'⟩ := by
              simp only [killLoop, hn, ht, ne_eq, not_false_eq_true, if_true, hkill]
            rw [hk, hf]
            refine ⟨⟨1, by simp [KillCall.target, killOf]⟩, fun h => by simp at h, ?_,
              fun h => by simp at h⟩
            intro e' he'
            simp only [Ending.returned.injEq, Option.some.injEq] at he'
            exact ⟨sent, _, rfl, by rw [he'], hsent⟩
          | none =>
            have hk : killLoop cli none (c :: cs) s sent
                = killLoop cli none cs s' (sent ++ [⟨c.ID, "SIGKILL", none⟩]) := by
              simp only [killLoop, hn, ht, ne_eq, not_false_eq_true, if_true, hkill]
            have hsent' : ∀ k ∈ sent ++ [(⟨c.ID, "SIGKILL", none⟩ : KillCall)], k.err = none := by
              intro k hk'
              rcases List.mem_append.mp hk' with h | h
              · exact hsent k h
              · simp only [List.mem_singleton] at h; rw [h]
            obtain ⟨⟨n, h1⟩, h2, h3, h4⟩ := ih s' _ hsent'
            rw [hk, hf]
            refine ⟨⟨n + 1, ?_⟩, ?_, h3, h4⟩
            · rw [h1]; simp [KillCall.target, killOf]
            · intro h
              obtain ⟨a, b⟩ := h2 h
              refine ⟨?_, b⟩
              rw [a]; simp [KillCall.target, killOf]

/-- C8: for every engine and listing, `killTestContainers` returns the error of a
failed listing without sending a kill; otherwise the kills it sends are `SIGKILL`s
to the listed containers whose first name is not `/testvps`, one for each in
listing order up to where it stops; when it returns no error it has sent one to
every such container and none failed; a kill that fails is the last one sent,
and its error is what the stopper returns. -/
theorem killTestContainers_spec {σ : Type} (cli : Client σ) (s : σ) :
    (∀ e, (cli.ContainerList s).2 = some e →
        (killTestContainers cli s).ending = .returned (some e)
        ∧ (killTestContainers cli s).sent = [] ∧ (killTestContainers cli s).state = s)
    ∧ (∃ n, (killTestContainers cli s).sent.map KillCall.target
        = (((cli.ContainerList s).1.filter notTestvps).take n).map killOf)
    ∧ (∀ k ∈ (killTestContainers cli s).sent, k.signal = "SIGKILL"
        ∧ ∃ c ∈ (cli.ContainerList s).1, c.ID = k.id ∧ c.Names.head? ≠ some "/testvps")
    ∧ ((killTestContainers cli s).ending = .returned none →
        (killTestContainers cli s).sent.map KillCall.target
          = ((cli.ContainerList s).1.filter notTestvps).map killOf
        ∧ ∀ k ∈ (killTestContainers cli s).sent, k.err = none)
    ∧ (∀ pre k post, (killTestContainers cli s).sent = pre ++ k :: post → k.err ≠ none →
        post = [] ∧ (killTestContainers cli s).ending = .returned k.err)
    ∧ (∀ e, (cli.ContainerList s).2 = none →
        (killTestContainers cli s).ending = .returned (some e) →
        ∃ pre k, (killTestContainers cli s).sent = pre ++ [k] ∧ k.err = some e) := by
  cases hl : cli.ContainerList s with
  | mk listing lerr =>
    cases lerr with
    | some e0 =>
      have hk : killTestContainers cli s = ⟨.returned (some e0), [], s⟩ := by
        simp only [killTestContainers, hl]
      rw [hk]
      refine ⟨?_, ⟨0, by simp⟩, fun k hk' => by simp at hk', fun h => by simp at h, ?_,
        fun e h => by simp at h⟩
      · intro e he
        simp only [Option.some.injEq] at he
        exact ⟨by rw [he], rfl, rfl⟩
      · intro pre k post h
        simp at h
    | none =>
      have hk : killTestContainers cli s = killLoop cli none listing s [] := by
        simp only [killTestContainers, hl]
      obtain ⟨⟨n, h1⟩, h2, h3, h4⟩ := killLoop_spec cli listing s [] (by simp)
      rw [hk]
      simp only [List.map_nil, List.nil_append] at h1 h2
      refine ⟨fun e h => by simp at h, ⟨n, h1⟩, ?_, h2, ?_, ?_⟩
      · intro k hk'
        have hm : k.target ∈ (killLoop cli none listing s []).sent.map KillCall.target :=
          List.mem_map_of_mem _ hk'
        rw [h1] at hm
        obtain ⟨c, hc, hck⟩ := List.mem_map.mp hm
        have hc' : c ∈ listing.filter notTestvps := List.mem_of_mem_take hc
        rw [List.mem_filter] at hc'
        simp only [killOf, KillCall.target, Prod.mk.injEq] at hck
        refine ⟨hck.2.symm, c, hc'.1, hck.1, ?_⟩
        have hnt := hc'.2
        unfold notTestvps at hnt
        cases hn : c.Names with
        | nil => simp
        | cons name names =>
          rw [hn] at hnt
          simpa using hnt
      · intro pre k post hsent hkerr
        cases hend : (killLoop cli none listing s []).ending with
        | returned e =>
          cases e with
          | none =>
            have := (h2 hend).2 k (by rw [hsent]; simp)
            exact absurd this hkerr
          | some e =>
            obtain ⟨pre0, k0, hs0, hk0, hpre0⟩ := h3 e hend
            rw [hs0] at hsent
            obtain ⟨hp, hkk⟩ := failing_is_last (fun x : KillCall => x.err = none) pre0 pre post
              k0 k hpre0 hsent hkerr
            exact ⟨hp, by rw [hkk, hk0]⟩
        | indexOutOfRange =>
          have := h4 hend k (by rw [hsent]; simp)
          exact absurd this hkerr
      · intro e _ hend
        obtain ⟨pre0, k0, hs0, hk0, _⟩ := h3 e hend
        exact ⟨pre0, k0, hs0, hk0⟩

/-- Witness of C8: the test VPS between two containers. With a working engine both
others are killed, in order, and the VPS is not; when the kill of the first fails
the second is not killed; when the listing fails nothing is killed. -/
theorem killTestContainers_witness :
    (killTestContainers (sampleClient sampleListing none []) ["c1", "vps", "c2"]).ending
        = .returned none
    ∧ (killTestContainers (sampleClient sampleListing none []) ["c1", "vps", "c2"]).sent
        = [⟨"c1", "SIGKILL", none⟩, ⟨"c2", "SIGKILL", none⟩]
    ∧ (killTestContainers (sampleClient sampleListing none []) ["c1", "vps", "c2"]).state
        = ["vps"]
    ∧ (killTestContainers (sampleClient sampleListing none ["c1"]) ["c1", "vps", "c2"]).ending
        = .returned (some "cannot kill c1")
    ∧ (killTestContainers (sampleClient sampleListing none ["c1"]) ["c1", "vps", "c2"]).sent
        = [⟨"c1", "SIGKILL", some "cannot kill c1"⟩]
    ∧ (killTestContainers (sampleClient sampleListing (some "no engine") [])
        ["c1", "vps", "c2"]).sent = []
    ∧ ((killTestContainers (sampleClient sampleListing none []) ["c1", "vps", "c2"]).sent.map
        KillCall.target = (sampleListing.filter notTestvps).map killOf
      ∧ ∀ k ∈ (killTestContainers (sampleClient sampleListing none [])
          ["c1", "vps", "c2"]).sent, k.err = none) :=
  ⟨by decide, by decide, by decide, by decide, by decide, by decide,
    (killTestContainers_spec (sampleClient sampleListing none []) ["c1", "vps", "c2"]).2.2.2.1
      (by decide)⟩

end Build

/-! ## Theorems on the webhook event model -/

namespace Webhook

/-! ### Lemmas on the decoder -/

theorem findFieldLoop_mem (key : String) (fields : List String) (f0 : Option String)
    (f : String) (h : findFieldLoop key fields f0 = some f) : f ∈ fields ∨ f0 = some f := by
  induction fields generalizing f0 with
  | nil => right; simpa [findFieldLoop] using h
  | cons ff rest ih =>
    unfold findFieldLoop at h
    split at h
    · left; simp at h; simp [h]
    · rcases ih _ h with h1 | h1
      · left; simp [h1]
      · split at h1
        · left; simp at h1; simp [h1]
        · right; exact h1

theorem findField_mem (fields : List String) (key f : String)
    (h : findField fields key = some f) : f ∈ fields := by
  rcases findFieldLoop_mem key fields none f h with h1 | h1
  · exact h1
  · simp at h1

theorem findField_push (key f : String) (h : findField pushFields key = some f) :
    f = "ref" ∨ f = "repository" := by
  simpa [pushFields] using findField_mem _ _ _ h

theorem findField_repository (key f : String) (h : findField repositoryFields key = some f) :
    f = "name" ∨ f = "clone_url" ∨ f = "ssh_url" := by
  simpa [repositoryFields] using findField_mem _ _ _ h

/-- Whether storing a member of the repository object records an error. -/
theorem setRepositoryField_err (st : githubPushEventRepository × Bool) (m : String × JSON) :
    (setRepositoryField st m).2
      = (st.2 || !((findField repositoryFields m.1).isNone || stringOrNull m.2)) := by
  unfold setRepositoryField
  cases hf : findField repositoryFields m.1 with
  | none => simp
  | some f =>
    have hs : ∀ cur, (storeString m.2 cur).2 = !stringOrNull m.2 := by
      intro cur; cases m.2 <;> rfl
    simp only [Option.isNone_some, Bool.false_or]
    split_ifs <;> simp [hs]

theorem foldl_setRepositoryField_err (rs : List (String × JSON))
    (st : githubPushEventRepository × Bool) :
    (rs.foldl setRepositoryField st).2 = (st.2 || !repositoryTyped (.obj rs)) := by
  induction rs generalizing st with
  | nil => simp [repositoryTyped]
  | cons m rs ih =>
    rw [List.foldl_cons, ih, setRepositoryField_err]
    simp only [repositoryTyped, List.all_cons]
    cases st.2 <;> cases ((findField repositoryFields m.1).isNone || stringOrNull m.2) <;> simp

theorem storeRepository_err (v : JSON) (cur : githubPushEventRepository) :
    (storeRepository v cur).2 = !repositoryTyped v := by
  cases v with
  | obj rs => simp [storeRepository, foldl_setRepositoryField_err]
  | null => rfl
  | bool b => rfl
  | num n => rfl
  | str s => rfl
  | arr xs => rfl

theorem setPushField_err (st : githubPushEvent × Bool) (m : String × JSON) :
    (setPushField st m).2 = (st.2 || !memberTyped m) := by
  unfold setPushField memberTyped
  cases hf : findField pushFields m.1 with
  | none => simp
  | some f =>
    have hs : ∀ cur, (storeString m.2 cur).2 = !stringOrNull m.2 := by
      intro cur; cases m.2 <;> rfl
    simp only
    split_ifs <;> simp [hs, storeRepository_err]

theorem foldl_setPushField_err (ms : List (String × JSON)) (st : githubPushEvent × Bool) :
    (ms.foldl setPushField st).2 = (st.2 || !pushTyped (.obj ms)) := by
  induction ms generalizing st with
  | nil => simp [pushTyped]
  | cons m ms ih =>
    rw [List.foldl_cons, ih, setPushField_err]
    have : pushTyped (.obj (m :: ms)) = (memberTyped m && pushTyped (.obj ms)) := by
      simp only [pushTyped, List.all_cons]
    rw [this]
    cases st.2 <;> cases memberTyped m <;> simp

theorem unmarshal_err (v : JSON) (payload : githubPushEvent) :
    (unmarshal v payload).2 = !pushTyped v := by
  cases v with
  | obj ms => simp [unmarshal, foldl_setPushField_err]
  | null => rfl
  | bool b => rfl
  | num n => rfl
  | str s => rfl
  | arr xs => rfl

/-! ### What the decoder leaves in each field -/

theorem findSome_reverse_cons {α β : Type} (f : α → Option β) (m : α) (ms : List α) (d : β) :
    ((m :: ms).reverse.findSome? f).getD d = (ms.reverse.findSome? f).getD ((f m).getD d) := by
  rw [List.reverse_cons, List.findSome?_append]
  cases h : ms.reverse.findSome? f with
  | some b => simp
  | none => cases hm : f m <;> simp [List.findSome?, hm]

theorem storeString_fst (v : JSON) (cur : String) :
    (storeString v cur).1 = (match v with | .str s => some s | _ => none).getD cur := by
  cases v <;> rfl

theorem setPushField_eventType (st : githubPushEvent × Bool) (m : String × JSON) :
    (setPushField st m).1.eventType = st.1.eventType := by
  unfold setPushField
  cases findField pushFields m.1 with
  | none => rfl
  | some f => simp only; split_ifs <;> rfl

theorem foldl_setPushField_eventType (ms : List (String × JSON)) (st : githubPushEvent × Bool) :
    (ms.foldl setPushField st).1.eventType = st.1.eventType := by
  induction ms generalizing st with
  | nil => rfl
  | cons m ms ih => rw [List.foldl_cons, ih, setPushField_eventType]

theorem setPushField_Ref (st : githubPushEvent × Bool) (m : String × JSON) :
    (setPushField st m).1.Ref = (pick pushFields "ref" m).getD st.1.Ref := by
  unfold setPushField pick
  cases hf : findField pushFields m.1 with
  | none => simp
  | some f =>
    by_cases h : f = "ref"
    · subst h; simp [storeString_fst]
    · simp [h]

theorem foldl_setPushField_Ref (ms : List (String × JSON)) (st : githubPushEvent × Bool) :
    (ms.foldl setPushField st).1.Ref
      = (ms.reverse.findSome? (pick pushFields "ref")).getD st.1.Ref := by
  induction ms generalizing st with
  | nil => rfl
  | cons m ms ih => rw [List.foldl_cons, ih, setPushField_Ref, findSome_reverse_cons]

theorem setRepositoryField_fst (r : githubPushEventRepository) (e e' : Bool) (m : String × JSON) :
    (setRepositoryField (r, e) m).1 = (setRepositoryField (r, e') m).1 := by
  unfold setRepositoryField
  cases findField repositoryFields m.1 with
  | none => rfl
  | some f => simp only; split_ifs <;> rfl

theorem foldl_setRepositoryField_fst (rs : List (String × JSON)) (r : githubPushEventRepository)
    (e e' : Bool) :
    (rs.foldl setRepositoryField (r, e)).1 = (rs.foldl setRepositoryField (r, e')).1 := by
  induction rs generalizing r e e' with
  | nil => rfl
  | cons m rs ih =>
    rw [List.foldl_cons, List.foldl_cons]
    have h := setRepositoryField_fst r e e' m
    rw [show setRepositoryField (r, e) m
        = ((setRepositoryField (r, e) m).1, (setRepositoryField (r, e) m).2) from rfl,
      show setRepositoryField (r, e') m
        = ((setRepositoryField (r, e') m).1, (setRepositoryField (r, e') m).2) from rfl, h]
    exact ih _ _ _

theorem setPushField_Repo (st : githubPushEvent × Bool) (m : String × JSON) :
    (setPushField st m).1.Repo
      = ((repositoryMembers (.obj [m])).foldl setRepositoryField (st.1.Repo, false)).1 := by
  unfold setPushField
  simp only [repositoryMembers, JSON.members, List.flatMap_cons, List.flatMap_nil,
    List.append_nil]
  cases hf : findField pushFields m.1 with
  | none => simp
  | some f =>
    by_cases h : f = "ref"
    · subst h; simp
    · have h2 : f = "repository" := by
        rcases findField_push _ _ hf with h1 | h1
        · exact absurd h1 h
        · exact h1
      subst h2
      simp only [h, if_false, if_true]
      cases hv : m.2 <;> simp [storeRepository, JSON.members]

theorem foldl_setPushField_Repo (ms : List (String × JSON)) (st : githubPushEvent × Bool) :
    (ms.foldl setPushField st).1.Repo
      = ((repositoryMembers (.obj ms)).foldl setRepositoryField (st.1.Repo, false)).1 := by
  induction ms generalizing st with
  | nil => rfl
  | cons m ms ih =>
    rw [List.foldl_cons, ih, setPushField_Repo]
    have : repositoryMembers (.obj (m :: ms))
        = repositoryMembers (.obj [m]) ++ repositoryMembers (.obj ms) := by
      simp [repositoryMembers, JSON.members]
    rw [this, List.foldl_append]
    exact foldl_setRepositoryField_fst _ _ _ _

theorem setRepositoryField_Name (st : githubPushEventRepository × Bool) (m : String × JSON) :
    (setRepositoryField st m).1.Name = (pick repositoryFields "name" m).getD st.1.Name := by
  unfold setRepositoryField pick
  cases hf : findField repositoryFields m.1 with
  | none => simp
  | some f =>
    by_cases h : f = "name"
    · subst h; simp [storeString_fst]
    · by_cases h2 : f = "clone_url" <;> simp [h, h2]

theorem setRepositoryField_GitURL (st : githubPushEventRepository × Bool) (m : String × JSON) :
    (setRepositoryField st m).1.GitURL
      = (pick repositoryFields "clone_url" m).getD st.1.GitURL := by
  unfold setRepositoryField pick
  cases hf : findField repositoryFields m.1 with
  | none => simp
  | some f =>
    by_cases h : f = "name"
    · subst h; simp
    · by_cases h2 : f = "clone_url"
      · subst h2; simp [storeString_fst]
      · simp [h, h2]

theorem setRepositoryField_SSHURL (st : githubPushEventRepository × Bool) (m : String × JSON) :
    (setRepositoryField st m).1.SSHURL
      = (pick repositoryFields "ssh_url" m).getD st.1.SSHURL := by
  unfold setRepositoryField pick
  cases hf : findField repositoryFields m.1 with
  | none => simp
  | some f =>
    by_cases h : f = "name"
    · subst h; simp
    · by_cases h2 : f = "clone_url"
      · subst h2; simp
      · have h3 : f = "ssh_url" := by
          rcases findField_repository _ _ hf with h1 | h1 | h1
          · exact absurd h1 h
          · exact absurd h1 h2
          · exact h1
        subst h3; simp [storeString_fst]

theorem foldl_setRepositoryField_fields (rs : List (String × JSON))
    (st : githubPushEventRepository × Bool) :
    (rs.foldl setRepositoryField st).1.Name
        = (rs.reverse.findSome? (pick repositoryFields "name")).getD st.1.Name
    ∧ (rs.foldl setRepositoryField st).1.GitURL
        = (rs.reverse.findSome? (pick repositoryFields "clone_url")).getD st.1.GitURL
    ∧ (rs.foldl setRepositoryField st).1.SSHURL
        = (rs.reverse.findSome? (pick repositoryFields "ssh_url")).getD st.1.SSHURL := by
  induction rs generalizing st with
  | nil => exact ⟨rfl, rfl, rfl⟩
  | cons m rs ih =>
    rw [List.foldl_cons]
    obtain ⟨h1, h2, h3⟩ := ih (setRepositoryField st m)
    refine ⟨?_, ?_, ?_⟩
    · rw [h1, setRepositoryField_Name, findSome_reverse_cons]
    · rw [h2, setRepositoryField_GitURL, findSome_reverse_cons]
    · rw [h3, setRepositoryField_SSHURL, findSome_reverse_cons]

/-- The fields an object leaves in a payload. -/
theorem unmarshal_fields (v : JSON) (p : githubPushEvent) (hv : v.isObject = true) :
    (unmarshal v p).1.eventType = p.eventType
    ∧ (unmarshal v p).1.Ref = (v.members.reverse.findSome? (pick pushFields "ref")).getD p.Ref
    ∧ (unmarshal v p).1.Repo
        = ((repositoryMembers v).foldl setRepositoryField (p.Repo, false)).1 := by
  cases v with
  | obj ms =>
    exact ⟨foldl_setPushField_eventType ms _, foldl_setPushField_Ref ms _,
      foldl_setPushField_Repo ms _⟩
  | null => simp [JSON.isObject] at hv
  | bool b => simp [JSON.isObject] at hv
  | num n => simp [JSON.isObject] at hv
  | str s => simp [JSON.isObject] at hv
  | arr xs => simp [JSON.isObject] at hv

set_option maxRecDepth 100000

theorem lastString_of_not_selects (fields : List String) (name : String)
    (ms : List (String × JSON)) (h : selects fields name ms = false) :
    lastString fields name ms = "" := by
  unfold lastString
  have hnone : ms.reverse.findSome? (pick fields name) = none := by
    rw [List.findSome?_eq_none_iff]
    intro m hm
    have hm' : m ∈ ms := List.mem_reverse.mp hm
    unfold selects at h
    rw [List.any_eq_false] at h
    have := h m hm'
    unfold pick
    simp only [decide_eq_true_eq] at this
    simp [this]
  rw [hnone]; rfl

theorem repositoryMembers_of_not_selects (v : JSON)
    (h : selects pushFields "repository" v.members = false) : repositoryMembers v = [] := by
  unfold repositoryMembers
  unfold selects at h
  rw [List.any_eq_false] at h
  rw [List.flatMap_eq_nil_iff]
  intro m hm
  have := h m hm
  simp only [decide_eq_true_eq] at this
  simp [this]

/-- The fields of a decoded payload, for every value the decoder takes without error. -/
theorem unmarshal_newPayload (v : JSON) (h : pushTyped v = true) :
    (unmarshal v newPayload).1.GetEventType = PushEvent
    ∧ (unmarshal v newPayload).1.GetRef = lastString pushFields "ref" v.members
    ∧ (unmarshal v newPayload).1.GetRepoName
        = lastString repositoryFields "name" (repositoryMembers v)
    ∧ (unmarshal v newPayload).1.GetGitURL
        = lastString repositoryFields "clone_url" (repositoryMembers v)
    ∧ (unmarshal v newPayload).1.GetSSHURL
        = lastString repositoryFields "ssh_url" (repositoryMembers v) := by
  cases v with
  | obj ms =>
    obtain ⟨h1, h2, h3⟩ := unmarshal_fields (.obj ms) newPayload rfl
    obtain ⟨k1, k2, k3⟩ := foldl_setRepositoryField_fields (repositoryMembers (.obj ms))
      (newPayload.Repo, false)
    simp only [githubPushEvent.GetEventType, githubPushEvent.GetRef, githubPushEvent.GetRepoName,
      githubPushEvent.GetGitURL, githubPushEvent.GetSSHURL, lastString]
    rw [h3]
    exact ⟨h1, h2, k1, k2, k3⟩
  | null => exact ⟨rfl, rfl, rfl, rfl, rfl⟩
  | bool b => simp [pushTyped] at h
  | num n => simp [pushTyped] at h
  | str s => simp [pushTyped] at h
  | arr xs => simp [pushTyped] at h

theorem parseGithubEvent_push_eq (body : String) :
    parseGithubEvent body GithubPushHeader
      = if (Decode body newPayload).2 then ⟨none, some "Error parsing PushEvent", true⟩
        else ⟨some (Decode body newPayload).1, none, true⟩ := by
  simp [parseGithubEvent, newPayload]

theorem Decode_of_scan (body : String) (v : JSON) (h : scanBody body = some v) :
    Decode body newPayload = ((unmarshal v newPayload).1, !pushTyped v) := by
  unfold Decode
  rw [h]
  simp only
  rw [← unmarshal_err v newPayload]

/-! ### The depth bound of `scanBody` is enough -/

theorem skipSpace_length (cs : List Char) : (skipSpace cs).length ≤ cs.length := by
  induction cs with
  | nil => simp [skipSpace]
  | cons c cs ih =>
    simp only [skipSpace]
    split_ifs
    · simp only [List.length_cons]; omega
    · exact Nat.le_refl _

theorem takeDigits_length (cs : List Char) : (takeDigits cs).2.length ≤ cs.length := by
  induction cs with
  | nil => simp [takeDigits]
  | cons c cs ih =>
    simp only [takeDigits]
    split_ifs
    · simp only [List.length_cons]; omega
    · exact Nat.le_refl _

theorem scanUnsigned_length (cs i rest : List Char) (h : scanUnsigned cs = some (i, rest)) :
    rest.length < cs.length := by
  cases cs with
  | nil => simp [scanUnsigned] at h
  | cons d ds =>
    simp only [scanUnsigned] at h
    split_ifs at h
    · simp only [Option.some.injEq, Prod.mk.injEq] at h
      rw [← h.2]; simp
    · simp only [Option.some.injEq, Prod.mk.injEq] at h
      rw [← h.2]
      have := takeDigits_length ds
      simp only [List.length_cons]; omega

theorem scanInt_length (cs i rest : List Char) (h : scanInt cs = some (i, rest)) :
    rest.length < cs.length := by
  cases cs with
  | nil => simp [scanInt] at h
  | cons c cs =>
    simp only [scanInt] at h
    split_ifs at h
    · simp only [Option.map_eq_some', Prod.mk.injEq] at h
      obtain ⟨⟨i', r'⟩, hb, -, hr⟩ := h
      have := scanUnsigned_length cs i' r' hb
      simp only at hr
      rw [← hr]; simp only [List.length_cons]; omega
    · exact scanUnsigned_length (c :: cs) i rest h

theorem scanFrac_length (cs f rest : List Char) (h : scanFrac cs = some (f, rest)) :
    rest.length ≤ cs.length := by
  cases cs with
  | nil => simp [scanFrac] at h; simp [h]
  | cons c cs =>
    simp only [scanFrac] at h
    split_ifs at h
    · have := takeDigits_length cs
      split at h
      · simp at h
      · rename_i d ds rest' heq
        simp only [Option.some.injEq, Prod.mk.injEq] at h
        rw [← h.2]
        rw [heq] at this
        simp only [List.length_cons]; simp only at this; omega
    · simp only [Option.some.injEq, Prod.mk.injEq] at h
      rw [← h.2]

theorem scanSign_length (cs : List Char) : (scanSign cs).2.length ≤ cs.length := by
  cases cs with
  | nil => simp [scanSign]
  | cons s cs =>
    simp only [scanSign]
    split_ifs <;> simp

theorem scanExp_length (cs e rest : List Char) (h : scanExp cs = some (e, rest)) :
    rest.length ≤ cs.length := by
  cases cs with
  | nil => simp [scanExp] at h; simp [h]
  | cons c cs =>
    simp only [scanExp] at h
    split_ifs at h
    · have h1 := scanSign_length cs
      have h2 := takeDigits_length (scanSign cs).2
      split at h
      · simp at h
      · rename_i d ds rest' heq
        simp only [Option.some.injEq, Prod.mk.injEq] at h
        rw [← h.2]
        rw [heq] at h2
        simp only [List.length_cons]; simp only at h2; omega
    · simp only [Option.some.injEq, Prod.mk.injEq] at h
      rw [← h.2]

theorem scanNumber_length (cs : List Char) (lit : String) (rest : List Char)
    (h : scanNumber cs = some (lit, rest)) : rest.length < cs.length := by
  unfold scanNumber at h
  split at h
  · simp at h
  · rename_i i r1 h1
    split at h
    · simp at h
    · rename_i f r2 h2
      split at h
      · simp at h
      · rename_i e r3 h3
        simp only [Option.some.injEq, Prod.mk.injEq] at h
        have a1 := scanInt_length _ _ _ h1
        have a2 := scanFrac_length _ _ _ h2
        have a3 := scanExp_length _ _ _ h3
        rw [← h.2]; omega

theorem scanStringLit_length (n : Nat) : ∀ (cs acc raw rest : List Char), cs.length ≤ n →
    scanStringLit cs acc = some (raw, rest) → rest.length < cs.length := by
  induction n using Nat.strong_induction_on with
  | _ n ih =>
    intro cs acc raw rest hn h
    cases cs with
    | nil => simp [scanStringLit] at h
    | cons c cs =>
      unfold scanStringLit at h
      simp only [List.length_cons] at hn ⊢
      split_ifs at h
      · simp only [Option.some.injEq, Prod.mk.injEq] at h
        rw [← h.2]; omega
      · cases cs with
        | nil => simp at h
        | cons e cs' =>
          simp only at h
          simp only [List.length_cons] at hn ⊢
          split_ifs at h
          · have := ih cs'.length (by omega) cs' _ raw rest (Nat.le_refl _) h
            omega
          · have := ih cs'.length (by omega) cs' _ raw rest (Nat.le_refl _) h
            omega
      · have := ih cs.length (by omega) cs _ raw rest (Nat.le_refl _) h
        omega

theorem scanStep_length (next : Mode → List Char → Option (JSON × List Char))
    (hnext : ∀ m cs v rest, next m cs = some (v, rest) → rest.length < cs.length)
    (m : Mode) (cs : List Char) (v : JSON) (rest : List Char)
    (h : scanStep next m cs = some (v, rest)) : rest.length < cs.length := by
  cases m with
  | value depth =>
    simp only [scanStep] at h
    have h0 := skipSpace_length cs
    split at h
    · simp at h
    · rename_i c r heq
      rw [heq] at h0; simp only [List.length_cons] at h0
      by_cases hc1 : c = '\x7b'
      · simp only [hc1, if_true] at h
        by_cases hd : maxNestingDepth < depth + 1
        · simp [hd] at h
        · simp only [hd, if_false] at h
          have h1 := skipSpace_length r
          split at h
          · simp at h
          · rename_i c' r' heq'
            rw [heq'] at h1; simp only [List.length_cons] at h1
            split_ifs at h
            · simp only [Option.some.injEq, Prod.mk.injEq] at h
              rw [← h.2]; omega
            · have := hnext _ _ _ _ h
              simp only [List.length_cons] at this; omega
      · simp only [hc1, if_false] at h
        by_cases hc2 : c = '['
        · simp only [hc2, if_true] at h
          by_cases hd : maxNestingDepth < depth + 1
          · simp [hd] at h
          · simp only [hd, if_false] at h
            have h1 := skipSpace_length r
            split at h
            · simp at h
            · rename_i c' r' heq'
              rw [heq'] at h1; simp only [List.length_cons] at h1
              split_ifs at h
              · simp only [Option.some.injEq, Prod.mk.injEq] at h
                rw [← h.2]; omega
              · have := hnext _ _ _ _ h
                simp only [List.length_cons] at this; omega
        · simp only [hc2, if_false] at h
          split_ifs at h
          · simp only [Option.map_eq_some', Prod.mk.injEq] at h
            obtain ⟨⟨raw, r'⟩, hs, -, hr⟩ := h
            have := scanStringLit_length _ _ _ _ _ (Nat.le_refl _) hs
            simp only at hr
            rw [← hr]; omega
          · split at h
            · simp only [Option.some.injEq, Prod.mk.injEq] at h
              rw [← h.2]; simp only [List.length_cons] at h0; omega
            · simp at h
          · split at h
            · simp only [Option.some.injEq, Prod.mk.injEq] at h
              rw [← h.2]; simp only [List.length_cons] at h0; omega
            · simp at h
          · split at h
            · simp only [Option.some.injEq, Prod.mk.injEq] at h
              rw [← h.2]; simp only [List.length_cons] at h0; omega
            · simp at h
          · simp only [Option.map_eq_some', Prod.mk.injEq] at h
            obtain ⟨⟨lit, r'⟩, hs, -, hr⟩ := h
            have := scanNumber_length _ _ _ hs
            simp only [List.length_cons] at this
            simp only at hr
            rw [← hr]; omega
  | elems depth acc =>
    simp only [scanStep] at h
    split at h
    · simp at h
    · rename_i v1 r1 hv
      have h1 := hnext _ _ _ _ hv
      have h2 := skipSpace_length r1
      split at h
      · simp at h
      · rename_i c r' heq
        rw [heq] at h2; simp only [List.length_cons] at h2
        split_ifs at h
        · have := hnext _ _ _ _ h; omega
        · simp only [Option.some.injEq, Prod.mk.injEq] at h
          rw [← h.2]; omega
  | members depth acc =>
    simp only [scanStep] at h
    have h0 := skipSpace_length cs
    split at h
    · simp at h
    · rename_i q aq heq
      rw [heq] at h0; simp only [List.length_cons] at h0
      split_ifs at h
      split at h
      · simp at h
      · rename_i raw ak hk
        have h1 := scanStringLit_length _ _ _ _ _ (Nat.le_refl _) hk
        have h2 := skipSpace_length ak
        split at h
        · simp at h
        · rename_i colon ac heq2
          rw [heq2] at h2; simp only [List.length_cons] at h2
          split_ifs at h
          split at h
          · simp at h
          · rename_i v1 r1 hv
            have h3 := hnext _ _ _ _ hv
            have h4 := skipSpace_length r1
            split at h
            · simp at h
            · rename_i c r' heq3
              rw [heq3] at h4; simp only [List.length_cons] at h4
              split_ifs at h
              · have := hnext _ _ _ _ h; omega
              · simp only [Option.some.injEq, Prod.mk.injEq] at h
                rw [← h.2]; omega

theorem scan_length (n : Nat) : ∀ (m : Mode) (cs : List Char) (v : JSON) (rest : List Char),
    scan n m cs = some (v, rest) → rest.length < cs.length := by
  induction n with
  | zero => intro m cs v rest h; simp [scan] at h
  | succ n ih => intro m cs v rest h; exact scanStep_length (scan n) ih m cs v rest h

theorem scanStep_mono (f g : Mode → List Char → Option (JSON × List Char))
    (m : Mode) (cs : List Char) (r : JSON × List Char)
    (hlen : ∀ m' cs' v rest, f m' cs' = some (v, rest) → rest.length < cs'.length)
    (hfg : ∀ m' cs' r', need m' cs' < need m cs → f m' cs' = some r' → g m' cs' = some r')
    (h : scanStep f m cs = some r) : scanStep g m cs = some r := by
  cases m with
  | value depth =>
    simp only [scanStep] at h ⊢
    have h0 := skipSpace_length cs
    split at h
    · simp at h
    · rename_i c r0 heq
      rw [heq] at h0; simp only [List.length_cons] at h0
      try simp only [heq]
      by_cases hc1 : c = '\x7b'
      · simp only [hc1, if_true] at h ⊢
        by_cases hd : maxNestingDepth < depth + 1
        · simp [hd] at h
        · simp only [hd, if_false] at h ⊢
          have h1 := skipSpace_length r0
          split at h
          · simp at h
          · rename_i c' r' heq'
            rw [heq'] at h1; simp only [List.length_cons] at h1
            try simp only [heq']
            split_ifs at h ⊢
            · exact h
            · exact hfg _ _ _ (by simp only [need, List.length_cons]; omega) h
      · simp only [hc1, if_false] at h ⊢
        by_cases hc2 : c = '['
        · simp only [hc2, if_true] at h ⊢
          by_cases hd : maxNestingDepth < depth + 1
          · simp [hd] at h
          · simp only [hd, if_false] at h ⊢
            have h1 := skipSpace_length r0
            split at h
            · simp at h
            · rename_i c' r' heq'
              rw [heq'] at h1; simp only [List.length_cons] at h1
              try simp only [heq']
              split_ifs at h ⊢
              · exact h
              · exact hfg _ _ _ (by simp only [need, List.length_cons]; omega) h
        · simp only [hc2, if_false] at h ⊢
          exact h
  | elems depth acc =>
    simp only [scanStep] at h ⊢
    split at h
    · simp at h
    · rename_i v1 r1 hv
      have h1 := hlen _ _ _ _ hv
      have h2 := skipSpace_length r1
      rw [hfg _ _ _ (by simp only [need]; omega) hv]
      split at h
      · simp at h
      · rename_i c r' heq
        rw [heq] at h2; simp only [List.length_cons] at h2
        try simp only [heq]
        split_ifs at h ⊢
        · exact hfg _ _ _ (by simp only [need]; omega) h
        · exact h
  | members depth acc =>
    simp only [scanStep] at h ⊢
    have h0 := skipSpace_length cs
    split at h
    · simp at h
    · rename_i q aq heq
      rw [heq] at h0; simp only [List.length_cons] at h0
      try simp only [heq]
      split_ifs at h ⊢
      split at h
      · simp at h
      · rename_i raw ak hk
        have h1 := scanStringLit_length _ _ _ _ _ (Nat.le_refl _) hk
        have h2 := skipSpace_length ak
        try simp only [hk]
        split at h
        · simp at h
        · rename_i colon ac heq2
          rw [heq2] at h2; simp only [List.length_cons] at h2
          try simp only [heq2]
          split_ifs at h ⊢
          split at h
          · simp at h
          · rename_i v1 r1 hv
            have h3 := hlen _ _ _ _ hv
            have h4 := skipSpace_length r1
            rw [hfg _ _ _ (by simp only [need]; omega) hv]
            split at h
            · simp at h
            · rename_i c r' heq3
              rw [heq3] at h4; simp only [List.length_cons] at h4
              try simp only [heq3]
              split_ifs at h ⊢
              · exact hfg _ _ _ (by simp only [need]; omega) h
              · exact h

theorem scan_succ (n : Nat) : ∀ (m : Mode) (cs : List Char) (r : JSON × List Char),
    scan n m cs = some r → scan (n + 1) m cs = some r := by
  induction n with
  | zero => intro m cs r h; simp [scan] at h
  | succ n ih =>
    intro m cs r h
    exact scanStep_mono (scan n) (scan (n + 1)) m cs r (scan_length n)
      (fun m' cs' r' _ h' => ih m' cs' r' h') h

theorem scan_mono (n k : Nat) (hnk : n ≤ k) (m : Mode) (cs : List Char) (r : JSON × List Char)
    (h : scan n m cs = some r) : scan k m cs = some r := by
  induction k with
  | zero =>
    have : n = 0 := by omega
    subst this; exact h
  | succ k ih =>
    by_cases hk : n ≤ k
    · exact scan_succ k m cs r (ih hk)
    · have : n = k + 1 := by omega
      subst this; exact h

theorem scan_need (n : Nat) : ∀ (m : Mode) (cs : List Char) (r : JSON × List Char),
    scan n m cs = some r → scan (need m cs) m cs = some r := by
  induction n with
  | zero => intro m cs r h; simp [scan] at h
  | succ n ih =>
    intro m cs r h
    obtain ⟨k, hk⟩ : ∃ k, need m cs = k + 1 := by
      cases m <;> exact ⟨_, rfl⟩
    rw [hk]
    refine scanStep_mono (scan n) (scan k) m cs r (scan_length n) ?_ h
    intro m' cs' r' hlt h'
    exact scan_mono _ _ (by omega) m' cs' r' (ih m' cs' r' h')

/-- The depth of calls `scanBody` allows is enough: whatever value a scan with any
depth of calls reads from the body, `scanBody` reads it. -/
theorem scanBody_complete (body : String) (fuel : Nat) (v : JSON) (rest : List Char)
    (h : scan fuel (.value 0) body.data = some (v, rest)) : scanBody body = some v := by
  have h1 := scan_need fuel (.value 0) body.data (v, rest) h
  have h2 := scan_mono _ (2 * body.length + 2) (by simp only [need, String.length]; omega)
    (.value 0) body.data (v, rest) h1
  simp [scanBody, h2]

/-! ### The nesting limit -/

/-- A run of arrays that opens one when `maxNestingDepth` arrays and objects are open
is not read, whatever follows it. -/
theorem scan_nested_arrays (n : Nat) : ∀ (fuel depth : Nat) (rest : List Char),
    maxNestingDepth ≤ depth + n →
    scan fuel (.value depth) ('[' :: (List.replicate n '[' ++ rest)) = none := by
  have e1 : ('[' : Char) ≠ '\x7b' := by decide
  have e2 : ('[' : Char) ≠ ']' := by decide
  have e3 : isSpace '[' = false := by decide
  induction n with
  | zero =>
    intro fuel depth rest h
    cases fuel with
    | zero => rfl
    | succ k =>
      have hd : maxNestingDepth < depth + 1 := by omega
      simp [scan, scanStep, skipSpace, e1, e3, hd]
  | succ n ih =>
    intro fuel depth rest h
    rw [List.replicate_succ, List.cons_append]
    cases fuel with
    | zero => rfl
    | succ k =>
      by_cases hd : maxNestingDepth < depth + 1
      · simp [scan, scanStep, skipSpace, e1, e3, hd]
      · have hnext : ∀ j, scan j (.value (depth + 1)) ('[' :: (List.replicate n '[' ++ rest))
            = none := fun j => ih j (depth + 1) rest (by omega)
        generalize List.replicate n '[' ++ rest = tl at hnext ⊢
        have hin : scan k (.elems (depth + 1) []) ('[' :: tl) = none := by
          cases k with
          | zero => rfl
          | succ j =>
            show scanStep (scan j) (.elems (depth + 1) []) ('[' :: tl) = none
            simp only [scanStep, hnext j]
        show scanStep (scan k) (.value depth) ('[' :: '[' :: tl) = none
        simp only [scanStep, skipSpace, e3, Bool.false_eq_true, if_false, e1, hd, if_true, e2]
        exact hin

/-- An object that holds, under a key, a value the scanner does not read is not read. -/
theorem scan_object_x (tail : List Char) (h : ∀ fuel, scan fuel (.value 1) tail = none) :
    ∀ fuel, scan fuel (.value 0) ('\x7b' :: '"' :: 'x' :: '"' :: ':' :: tail) = none := by
  intro fuel
  cases fuel with
  | zero => rfl
  | succ k =>
    have hin : scan k (.members 1 []) ('"' :: 'x' :: '"' :: ':' :: tail) = none := by
      cases k with
      | zero => rfl
      | succ j =>
        have hs : scanStringLit ('x' :: '"' :: ':' :: tail) [] = some (['x'], ':' :: tail) := by
          simp [scanStringLit]
        have e4 : isSpace '"' = false := by decide
        have e5 : isSpace ':' = false := by decide
        simp only [scan, scanStep, skipSpace, e4, e5, Bool.false_eq_true, if_false, if_true, hs]
        rw [h j]
    have e6 : isSpace '\x7b' = false := by decide
    have e7 : isSpace '"' = false := by decide
    have e8 : ('"' : Char) ≠ '\x7d' := by decide
    have e9 : ¬ maxNestingDepth < 0 + 1 := by decide
    simp only [scan, scanStep, skipSpace, e6, e7, Bool.false_eq_true, if_false, if_true, e8, e9]
    exact hin

/-- The scanner does not read a body that nests `maxNestingDepth` arrays in an object. -/
theorem scanBody_deepBody (rest : List Char) : scanBody (deepBody rest) = none := by
  have hmax : maxNestingDepth = 9999 + 1 := rfl
  have htail : ∀ fuel, scan fuel (.value 1) (List.replicate maxNestingDepth '[' ++ rest)
      = none := by
    intro fuel
    rw [hmax, List.replicate_succ, List.cons_append]
    exact scan_nested_arrays 9999 fuel 1 rest (by rw [hmax])
  have h := scan_object_x (List.replicate maxNestingDepth '[' ++ rest) htail
    (2 * (deepBody rest).length + 2)
  unfold scanBody
  have hd : (deepBody rest).data
      = '\x7b' :: '"' :: 'x' :: '"' :: ':' :: (List.replicate maxNestingDepth '[' ++ rest) := rfl
  rw [hd, h]
  rfl

/-- A run of arrays is read as long as it keeps within `maxNestingDepth`. -/
theorem scan_nested_within (n : Nat) : ∀ (depth : Nat) (rest : List Char),
    depth + (n + 1) ≤ maxNestingDepth →
    scan (2 * n + 1) (.value depth)
        ('[' :: (List.replicate n '[' ++ ']' :: (List.replicate n ']' ++ rest)))
      = some (nest n, rest) := by
  have e1 : ('[' : Char) ≠ '\x7b' := by decide
  have e2 : ('[' : Char) ≠ ']' := by decide
  have e3 : isSpace '[' = false := by decide
  have e4 : isSpace ']' = false := by decide
  have e5 : (']' : Char) ≠ ',' := by decide
  induction n with
  | zero =>
    intro depth rest h
    have hd : ¬ maxNestingDepth < depth + 1 := by omega
    show scanStep (scan 0) (.value depth) ('[' :: ([] ++ ']' :: ([] ++ rest))) = _
    simp [scanStep, skipSpace, e1, e3, e4, hd, nest]
  | succ n ih =>
    intro depth rest h
    have hd : ¬ maxNestingDepth < depth + 1 := by omega
    have hin := ih (depth + 1) (']' :: rest) (by omega)
    have hl : List.replicate (n + 1) '[' ++ ']' :: (List.replicate (n + 1) ']' ++ rest)
        = '[' :: (List.replicate n '[' ++ ']' :: (List.replicate n ']' ++ ']' :: rest)) := by
      rw [List.replicate_succ, List.cons_append, List.replicate_succ' n ']',
        List.append_assoc, List.singleton_append]
    rw [hl]
    generalize List.replicate n '[' ++ ']' :: (List.replicate n ']' ++ ']' :: rest)
      = tl at hin ⊢
    have hf : 2 * (n + 1) + 1 = (2 * n + 1) + 1 + 1 := by omega
    rw [hf]
    show scanStep (scanStep (scan (2 * n + 1))) (.value depth) ('[' :: '[' :: tl) = _
    simp only [scanStep, skipSpace, e3, Bool.false_eq_true, if_false, e1, hd, e2, hin, e4, e5,
      if_true, List.nil_append, nest]

/-- An object that holds, under the key `x`, a value the scanner reads is read. -/
theorem scan_object_x_within (tail rest : List Char) (v : JSON) (j : Nat)
    (h : scan j (.value 1) tail = some (v, '\x7d' :: rest)) :
    scan (j + 2) (.value 0) ('\x7b' :: '"' :: 'x' :: '"' :: ':' :: tail)
      = some (.obj [("x", v)], rest) := by
  have hs : scanStringLit ('x' :: '"' :: ':' :: tail) [] = some (['x'], ':' :: tail) := by
    simp [scanStringLit]
  have hu : String.mk (unquote 0 ['x']) = "x" := by decide
  have e4 : isSpace '"' = false := by decide
  have e5 : isSpace ':' = false := by decide
  have e6 : isSpace '\x7b' = false := by decide
  have e7 : isSpace '\x7d' = false := by decide
  have e8 : ('"' : Char) ≠ '\x7d' := by decide
  have e9 : ¬ maxNestingDepth < 0 + 1 := by decide
  have e10 : ('\x7d' : Char) ≠ ',' := by decide
  show scanStep (scanStep (scan j)) (.value 0) ('\x7b' :: '"' :: 'x' :: '"' :: ':' :: tail) = _
  simp only [scanStep, skipSpace, e4, e5, e6, e7, e8, e9, e10, hs, hu, h, Bool.false_eq_true,
    if_false, if_true, List.nil_append]

/-- The scanner reads a body that nests as many arrays and objects as
`maxNestingDepth` allows. -/
theorem scanBody_limitBody : scanBody limitBody = some (.obj [("x", nest 9998)]) := by
  have h1 := scan_nested_within 9998 1 ['\x7d'] (by decide)
  have h2 := scan_object_x_within _ [] _ _ h1
  exact scanBody_complete limitBody _ _ [] h2

/-- The parser accepts, under the push header, an object whose only key is `x`. -/
theorem parseGithubEvent_of_object_x (body : String) (v : JSON)
    (h : scanBody body = some (.obj [("x", v)])) :
    parseGithubEvent body GithubPushHeader = ⟨some emptyEvent, none, true⟩ := by
  have hf : findField pushFields "x" = none := by decide
  rw [parseGithubEvent_push_eq]
  simp [Decode, h, unmarshal, setPushField, hf, emptyEvent, newPayload, PushEvent]

/-- The parser accepts a body that nests as many arrays and objects as
`maxNestingDepth` allows. -/
theorem parseGithubEvent_limitBody :
    parseGithubEvent limitBody GithubPushHeader = ⟨some emptyEvent, none, true⟩ :=
  parseGithubEvent_of_object_x limitBody _ scanBody_limitBody

/-- The parser rejects, under the push header, a body the scanner does not read. -/
theorem parseGithubEvent_of_scanBody_none (body : String) (h : scanBody body = none) :
    parseGithubEvent body GithubPushHeader = ⟨none, some "Error parsing PushEvent", true⟩ := by
  rw [parseGithubEvent_push_eq]
  simp [Decode, h]

/-- The parser rejects a body that nests `maxNestingDepth` arrays in an object. -/
theorem parseGithubEvent_deepBody (rest : List Char) :
    parseGithubEvent (deepBody rest) GithubPushHeader
      = ⟨none, some "Error parsing PushEvent", true⟩ :=
  parseGithubEvent_of_scanBody_none (deepBody rest) (scanBody_deepBody rest)

/-! ### The claims on `parseGithubEvent` -/

/-- C1: for every request body and every event header other than the push header
`push`, `parseGithubEvent` returns no payload and the error `Unsupported Github
event` without calling `Decode` on the body; the result is the same for every
other body. -/
theorem parseGithubEvent_unsupported (body event : String) (h : event ≠ GithubPushHeader) :
    parseGithubEvent body event = ⟨none, some "Unsupported Github event", false⟩
    ∧ (∀ body', parseGithubEvent body' event = parseGithubEvent body event)
    ∧ GithubPushHeader = "push" := by
  have key : ∀ b, parseGithubEvent b event = ⟨none, some "Unsupported Github event", false⟩ := by
    intro b; simp [parseGithubEvent, h]
  exact ⟨key body, fun b => by rw [key b, key body], rfl⟩

/-- Witness of C1: a well-formed push payload under the header `pull_request`. -/
theorem parseGithubEvent_unsupported_witness :
    parseGithubEvent samplePush "pull_request" = ⟨none, some "Unsupported Github event", false⟩
    ∧ (∀ body', parseGithubEvent body' "pull_request"
        = parseGithubEvent samplePush "pull_request")
    ∧ GithubPushHeader = "push" :=
  parseGithubEvent_unsupported samplePush "pull_request" (by decide)

/-- Under the push header the result is decided by what the decoder makes of the
body. -/
theorem parseGithubEvent_push_cases (body : String) :
    ((scanBody body = none ∨ ∃ v, scanBody body = some v ∧ pushTyped v = false)
        ∧ parseGithubEvent body GithubPushHeader = ⟨none, some "Error parsing PushEvent", true⟩)
      ∨ ((∃ v, scanBody body = some v ∧ pushTyped v = true)
        ∧ ∃ g, parseGithubEvent body GithubPushHeader = ⟨some g, none, true⟩) := by
  rw [parseGithubEvent_push_eq]
  cases hs : scanBody body with
  | none =>
    left
    refine ⟨Or.inl rfl, ?_⟩
    simp [Decode, hs]
  | some v =>
    rw [Decode_of_scan body v hs]
    cases ht : pushTyped v with
    | false => left; exact ⟨Or.inr ⟨v, rfl, ht⟩, by simp⟩
    | true => right; exact ⟨⟨v, rfl, ht⟩, ⟨(unmarshal v newPayload).1, by simp⟩⟩

/-- C2: under the push header `parseGithubEvent` returns the error `Error parsing
PushEvent` and no payload exactly when the body does not decode as a push event:
the scanner reads no JSON value from it (the body is empty, cut short, not JSON,
or nested deeper than `maxNestingDepth`, each an error of the scanner), or the
value read is wrongly typed; otherwise it returns a payload and no error. No
other header yields that error, and for every input exactly one of payload and
error is returned. -/
theorem parseGithubEvent_push (body : String) :
    (((scanBody body = none ∨ ∃ v, scanBody body = some v ∧ pushTyped v = false)
        ∧ parseGithubEvent body GithubPushHeader = ⟨none, some "Error parsing PushEvent", true⟩)
      ∨ ((∃ v, scanBody body = some v ∧ pushTyped v = true)
        ∧ ∃ g, parseGithubEvent body GithubPushHeader = ⟨some g, none, true⟩))
    ∧ (∀ body' event', event' ≠ GithubPushHeader →
        (parseGithubEvent body' event').err = some "Unsupported Github event"
        ∧ (parseGithubEvent body' event').err ≠ some "Error parsing PushEvent")
    ∧ ∀ event, ((parseGithubEvent body event).payload.isSome = true
        ↔ (parseGithubEvent body event).err = none) := by
  refine ⟨parseGithubEvent_push_cases body, ?_, ?_⟩
  · intro body' event' he
    simp [parseGithubEvent, he]
  · intro event
    by_cases he : event = GithubPushHeader
    · subst he
      rcases parseGithubEvent_push_cases body with ⟨_, h⟩ | ⟨_, g, h⟩ <;> simp [h]
    · simp [parseGithubEvent, he]

/-- Witness of C2: the empty body, a body cut short, a number for `ref`, an array for
`repository`, a number for `clone_url` and a well-formed object that nests one
array more than `maxNestingDepth` allows are rejected; the sample payload and an
object nested as deep as the limit allows are accepted. -/
theorem parseGithubEvent_push_witness :
    parseGithubEvent "" GithubPushHeader = ⟨none, some "Error parsing PushEvent", true⟩
    ∧ parseGithubEvent "\x7b\"ref\":" GithubPushHeader
        = ⟨none, some "Error parsing PushEvent", true⟩
    ∧ parseGithubEvent refNumber GithubPushHeader = ⟨none, some "Error parsing PushEvent", true⟩
    ∧ parseGithubEvent "\x7b\"repository\":[]\x7d" GithubPushHeader
        = ⟨none, some "Error parsing PushEvent", true⟩
    ∧ parseGithubEvent "\x7b\"repository\":\x7b\"clone_url\":7\x7d\x7d" GithubPushHeader
        = ⟨none, some "Error parsing PushEvent", true⟩
    ∧ parseGithubEvent (deepBody deepClose) GithubPushHeader
        = ⟨none, some "Error parsing PushEvent", true⟩
    ∧ parseGithubEvent limitBody GithubPushHeader = ⟨some emptyEvent, none, true⟩
    ∧ (parseGithubEvent samplePush GithubPushHeader).err = none := by
  have h := (parseGithubEvent_push "").1
  refine ⟨?_, by decide, by decide, by decide, by decide, parseGithubEvent_deepBody deepClose,
    parseGithubEvent_limitBody, by decide⟩
  rcases h with ⟨_, h⟩ | ⟨⟨v, hv, _⟩, _⟩
  · exact h
  · rw [show scanBody "" = none from rfl] at hv
    exact absurd hv (by simp)

/-- C3 (counterexample): the payload `refTwice` is accepted; its one member named
`ref` holds `a`, and `GetRef` returns `b`, stored by the member named `REF`. -/
theorem getRef_not_member_ref :
    (scanBody refTwice).bind (memberString "ref") = some "a"
    ∧ (parseGithubEvent refTwice GithubPushHeader).err = none
    ∧ (parseGithubEvent refTwice GithubPushHeader).payload.map githubPushEvent.GetRef
        = some "b" := by
  decide

/-- C3 (amended): for every payload `parseGithubEvent` accepts, `GetEventType` is
`PushEvent` whatever the payload holds, `GetRef` is the string of the last member
whose key selects the field tagged `ref` (the key equals the tag, or equals it
with the case of letters ignored), and `GetRepoName`, `GetGitURL`, `GetSSHURL` are
the strings of the last such members for `name`, `clone_url`, `ssh_url` among the
members of the objects under `repository`; a member holding `null` stores nothing
and a field no member stores in is empty. -/
theorem parseGithubEvent_capabilities (body event : String) (g : githubPushEvent)
    (h : (parseGithubEvent body event).payload = some g) :
    ∃ v, scanBody body = some v
      ∧ g.GetEventType = PushEvent ∧ PushEvent = "push"
      ∧ g.GetRef = lastString pushFields "ref" v.members
      ∧ g.GetRepoName = lastString repositoryFields "name" (repositoryMembers v)
      ∧ g.GetGitURL = lastString repositoryFields "clone_url" (repositoryMembers v)
      ∧ g.GetSSHURL = lastString repositoryFields "ssh_url" (repositoryMembers v) := by
  by_cases he : event = GithubPushHeader
  · subst he
    rcases parseGithubEvent_push_cases body with ⟨_, h'⟩ | ⟨⟨v, hv, ht⟩, _⟩
    · rw [h'] at h; simp at h
    · refine ⟨v, hv, ?_⟩
      rw [parseGithubEvent_push_eq, Decode_of_scan body v hv, ht] at h
      simp only [Bool.not_true, Bool.false_eq_true, if_false, Option.some.injEq] at h
      subst h
      obtain ⟨h1, h2, h3, h4, h5⟩ := unmarshal_newPayload v ht
      exact ⟨h1, rfl, h2, h3, h4, h5⟩
  · simp [parseGithubEvent, he] at h

/-- Witness of C3 (amended): the sample payload, whose key `eventType` does not reach
the event kind. -/
theorem parseGithubEvent_capabilities_witness :
    (parseGithubEvent samplePush "push").payload = some sampleEvent
    ∧ ∃ v, scanBody samplePush = some v
      ∧ sampleEvent.GetEventType = PushEvent ∧ PushEvent = "push"
      ∧ sampleEvent.GetRef = lastString pushFields "ref" v.members
      ∧ sampleEvent.GetRepoName = lastString repositoryFields "name" (repositoryMembers v)
      ∧ sampleEvent.GetGitURL = lastString repositoryFields "clone_url" (repositoryMembers v)
      ∧ sampleEvent.GetSSHURL = lastString repositoryFields "ssh_url" (repositoryMembers v) :=
  ⟨by decide, parseGithubEvent_capabilities samplePush "push" sampleEvent (by decide)⟩

/-- C10 (counterexample): the body `refNumber` is a well-formed JSON object, and
`parseGithubEvent` rejects it under the push header. -/
theorem object_with_number_ref_rejected :
    (scanBody refNumber).map JSON.isObject = some true
    ∧ parseGithubEvent refNumber GithubPushHeader
        = ⟨none, some "Error parsing PushEvent", true⟩ := by
  decide

/-- C10 (amended): under the push header every body from which the scanner reads a
JSON object (well-formed and nested no deeper than `maxNestingDepth`) in which
each member whose key selects a field (`ref`, `repository`, and `name`,
`clone_url`, `ssh_url` under `repository`, the case of letters ignored) holds a
value of the field's type or `null` is accepted, whichever fields are missing and
whatever other keys it carries: no error is returned, the event kind is `push`,
and every capability whose field no member selects is the empty string. -/
theorem parseGithubEvent_accepts_typed_object (body : String) (ms : List (String × JSON))
    (hs : scanBody body = some (.obj ms)) (ht : pushTyped (.obj ms) = true) :
    ∃ g, parseGithubEvent body GithubPushHeader = ⟨some g, none, true⟩
      ∧ g.GetEventType = "push"
      ∧ (selects pushFields "ref" ms = false → g.GetRef = "")
      ∧ (selects pushFields "repository" ms = false →
          g.GetRepoName = "" ∧ g.GetGitURL = "" ∧ g.GetSSHURL = "")
      ∧ (selects repositoryFields "name" (repositoryMembers (.obj ms)) = false → g.GetRepoName = "")
      ∧ (selects repositoryFields "clone_url" (repositoryMembers (.obj ms)) = false → g.GetGitURL = "")
      ∧ (selects repositoryFields "ssh_url" (repositoryMembers (.obj ms)) = false → g.GetSSHURL = "") := by
  obtain ⟨h1, h2, h3, h4, h5⟩ := unmarshal_newPayload (.obj ms) ht
  refine ⟨(unmarshal (.obj ms) newPayload).1, ?_, h1, ?_, ?_, ?_, ?_, ?_⟩
  · rw [parseGithubEvent_push_eq, Decode_of_scan body _ hs, ht]; simp
  · intro h; rw [h2]; exact lastString_of_not_selects _ _ _ h
  · intro h
    rw [h3, h4, h5, repositoryMembers_of_not_selects (.obj ms) h]
    exact ⟨rfl, rfl, rfl⟩
  · intro h; rw [h3, lastString_of_not_selects _ _ _ h]
  · intro h; rw [h4, lastString_of_not_selects _ _ _ h]
  · intro h; rw [h5, lastString_of_not_selects _ _ _ h]

/-- Witness of C10 (amended): a body without `ref`, with a `repository` that has a
`name` only, and with keys no field is tagged with (holding a string, a number,
a boolean, an object and an array) is accepted with the kind `push`, the
repository name and every other capability empty; and the body of an empty
object yields the event with every capability empty. -/
theorem parseGithubEvent_accepts_typed_object_witness :
    (∃ g, parseGithubEvent pingBody GithubPushHeader = ⟨some g, none, true⟩
      ∧ g.GetEventType = "push" ∧ g.GetRef = "" ∧ g.GetRepoName = "inertia"
      ∧ g.GetGitURL = "" ∧ g.GetSSHURL = "")
    ∧ parseGithubEvent "\x7b\x7d" GithubPushHeader = ⟨some emptyEvent, none, true⟩ := by
  obtain ⟨g, h1, h2, h3, _, _, h6, h7⟩ :=
    parseGithubEvent_accepts_typed_object pingBody pingMembers rfl (by decide)
  refine ⟨⟨g, h1, h2, h3 (by decide), ?_, h6 (by decide), h7 (by decide)⟩, by decide⟩
  have hp : parseGithubEvent pingBody GithubPushHeader
      = ⟨some ⟨"push", "", ⟨"inertia", "", ""⟩⟩, none, true⟩ := by decide
  rw [hp] at h1
  simp only [Parsed.mk.injEq, Option.some.injEq, and_true] at h1
  rw [← h1]
  rfl

end Webhook

end Inertia
